import Mathlib

set_option maxRecDepth 8000

namespace Crawler

/-!
Shallow embedding of the scraping core of the Novel-crawler repository
(`src/analysis_index.py`): text normalization, Chinese numeral parsing,
chapter-number resolution, the chapter-list extractor with its container
strategies, gap-filling and pagination merge, the memory-optimized batch
extractor, the chapter-content extractor, and the HTTP fetch retry loop.

HTML strings are modelled post-parse: a `Node` tree stands for the
`BeautifulSoup` document, and `_bs` is the parse boundary.  Behaviour of the
Python standard library (`str` methods, `urllib.parse`, codecs, `re`) is
translated into executable Lean functions; regular expressions are rendered
as deterministic scanners equivalent to the specific patterns used by the
source.
-/

/-- Python `str` whitespace, restricted to the characters this code base can
meet (`str.split`, `str.strip`, `\s` all treat these as whitespace). -/
def isPySpace (c : Char) : Bool :=
  c = ' ' ∨ c = '\t' ∨ c = '\n' ∨ c = '\r' ∨ c = '\x0b' ∨ c = '\x0c' ∨ c = '\xa0'

/-- Python `str.strip()` on a character list. -/
def pyStripL (l : List Char) : List Char :=
  ((l.dropWhile isPySpace).reverse.dropWhile isPySpace).reverse

/-- Python `str.strip()`. -/
def pyStrip (s : String) : String := (pyStripL s.toList).asString

/-- Helper for `pyWords`: accumulate the current word (reversed) while
splitting on whitespace runs. -/
def pyWordsGo : List Char → List Char → List String
  | [], acc => if acc.isEmpty then [] else [acc.reverse.asString]
  | c :: rest, acc =>
    if isPySpace c then
      if acc.isEmpty then pyWordsGo rest [] else acc.reverse.asString :: pyWordsGo rest []
    else pyWordsGo rest (c :: acc)

/-- Python `str.split()` with no arguments: split on whitespace runs,
dropping empty pieces. -/
def pyWords (s : String) : List String := pyWordsGo s.toList []

/-- `_clean_text` from the source: `re.sub(r'[\r\t\xa0]+', ' ', s)` followed by
`" ".join(t.split()).strip()`.  Since `str.split()` already treats `\r`, `\t`
and `\xa0` as whitespace, the composite collapses every whitespace run to a
single space and trims the ends. -/
def _clean_text (s : String) : String := String.intercalate " " (pyWords s)

/-- Prefix test on character lists. -/
def listStartsWith (l p : List Char) : Bool := l.take p.length = p

/-- Python `str.startswith`. -/
def strStartsWith (s p : String) : Bool := listStartsWith s.toList p.toList

/-- Python `str.endswith`. -/
def strEndsWith (s p : String) : Bool := listStartsWith s.toList.reverse p.toList.reverse

/-- ASCII lowering — the reach of `str.lower()` this code base relies on. -/
def pyLower (s : String) : String := (s.toList.map Char.toLower).asString

/-- Index of the first occurrence of `p` in `l` (`str.find` on a nonempty
needle), with fuel above the haystack length. -/
def idxOfSubGo : Nat → List Char → List Char → Option Nat
  | 0, _, _ => none
  | fuel + 1, l, p =>
    if listStartsWith l p then some 0
    else
      match l with
      | [] => none
      | _ :: rest => (idxOfSubGo fuel rest p).map (· + 1)

/-- Substring test (Python `in` on strings); `sub` is nonempty at every use
site. -/
def containsSub (s sub : String) : Bool :=
  (idxOfSubGo (s.length + 1) s.toList sub.toList).isSome

/-- Python `str.replace` over a nonempty needle (each step consumes at least
one character, so fuel above the input length suffices). -/
def replaceSubGo : Nat → List Char → List Char → List Char → List Char
  | 0, l, _, _ => l
  | fuel + 1, l, p, r =>
    if ¬ p.isEmpty ∧ listStartsWith l p then r ++ replaceSubGo fuel (l.drop p.length) p r
    else
      match l with
      | [] => []
      | c :: rest => c :: replaceSubGo fuel rest p r

/-- Python `str.replace` on strings. -/
def strReplace (s p r : String) : String :=
  (replaceSubGo (s.length + 1) s.toList p.toList r.toList).asString

/-- Split on newline characters (the `splitlines` uses of this code base
meet only `\n`, as `fetch_html` normalizes line endings). -/
def splitOnNlGo : List Char → List Char → List String
  | [], acc => [acc.reverse.asString]
  | c :: rest, acc =>
    if c = '\n' then acc.reverse.asString :: splitOnNlGo rest []
    else splitOnNlGo rest (c :: acc)

/-- `raw.splitlines()` for newline-normalized text. -/
def splitLines (s : String) : List String := splitOnNlGo s.toList []

/-- `_CHN_DIGITS` from the source. -/
def chnDigit : Char → Option Nat
  | '零' => some 0
  | '〇' => some 0
  | '一' => some 1
  | '二' => some 2
  | '三' => some 3
  | '四' => some 4
  | '五' => some 5
  | '六' => some 6
  | '七' => some 7
  | '八' => some 8
  | '九' => some 9
  | _ => none

/-- `_CHN_UNITS` from the source. -/
def chnUnit : Char → Option Nat
  | '十' => some 10
  | '百' => some 100
  | '千' => some 1000
  | '万' => some 10000
  | _ => none

/-- Full-width digit `０..９`. -/
def isFullwidthDigit (c : Char) : Bool := '０' ≤ c ∧ c ≤ '９'

/-- The source folds full-width digits to ASCII via `chr(ord(ch) - 65248)`. -/
def foldFullwidth (c : Char) : Char :=
  if isFullwidthDigit c then Char.ofNat (c.toNat - 65248) else c

/-- Decimal value of an ASCII digit run (Python `int` on a digit string). -/
def digitsToNat (l : List Char) : Nat :=
  l.foldl (fun a c => a * 10 + (c.toNat - 48)) 0

/-- Python `str.isdigit()`, modelled for the ASCII and full-width digits that
occur in this domain. -/
def pyIsdigit (l : List Char) : Bool :=
  ¬ l.isEmpty ∧ l.all (fun c => c.isDigit ∨ isFullwidthDigit c)

/-- Python `int()` on a string accepted by `pyIsdigit` (full-width digits are
accepted by `int` as well). -/
def pyIntDigits (l : List Char) : Nat := digitsToNat (l.map foldFullwidth)

/-- The accumulation loop of `_chinese_numeral_to_int`, carrying
`total`, `current` and `has_unit`. -/
def chnGo : List Char → Nat → Nat → Bool → Option Nat
  | [], total, current, hasUnit =>
    let t := total + current
    if t = 0 ∧ hasUnit ∧ current = 0 then some 10
    else if 0 < t then some t else none
  | c :: rest, total, current, hasUnit =>
    match chnDigit c with
    | some d => chnGo rest total (current * 10 + d) hasUnit
    | none =>
      match chnUnit c with
      | some u => chnGo rest (total + (if current = 0 then 1 else current) * u) 0 true
      | none => none

/-- `_chinese_numeral_to_int` from the source: empty input fails, a stripped
digit string goes through `int`, otherwise positional accumulation over the
Chinese digit/unit alphabet, failing on the first unrecognized character. -/
def _chinese_numeral_to_int (s : String) : Option Nat :=
  if s = "" then none
  else
    let t := pyStripL s.toList
    if pyIsdigit t then some (pyIntDigits t) else chnGo t 0 0 false

/-- Character class `[零〇一二三四五六七八九十百千万0-9]` used by the two
title-correction substitutions of `_normalize_title`. -/
def titleNumChar (c : Char) : Bool :=
  (chnDigit c).isSome ∨ (chnUnit c).isSome ∨ c.isDigit

/-- First substitution of `_normalize_title`:
`^(底|都)(\s*[零〇一二三四五六七八九十百千万0-9]+)` is rewritten to `第\2`
(the leading typo character is replaced when followed by a numeral run). -/
def normSub1 (l : List Char) : List Char :=
  match l with
  | [] => []
  | c :: rest =>
    if c = '底' ∨ c = '都' then
      let ws := rest.takeWhile isPySpace
      let nums := (rest.drop ws.length).takeWhile titleNumChar
      if nums.isEmpty then c :: rest else '第' :: rest
    else c :: rest

/-- Target class `[张璋漳仗中钟衷]` of the second substitution. -/
def zhangTypo (c : Char) : Bool :=
  c = '张' ∨ c = '璋' ∨ c = '漳' ∨ c = '仗' ∨ c = '中' ∨ c = '钟' ∨ c = '衷'

/-- Second substitution of `_normalize_title`:
`re.sub((第\s*[零〇...万0-9]+\s*)[张璋漳仗中钟衷], \1章, t)` — every
occurrence of the chapter-heading shape followed by a `章` typo is corrected,
scanning left to right, resuming after each replacement (fuel bounds the
scan; it is called with fuel larger than the string length). -/
def normSub2Go : Nat → List Char → List Char
  | 0, l => l
  | _ + 1, [] => []
  | fuel + 1, c :: rest =>
    if c = '第' then
      let ws1 := rest.takeWhile isPySpace
      let r1 := rest.drop ws1.length
      let nums := r1.takeWhile titleNumChar
      let r2 := r1.drop nums.length
      let ws2 := r2.takeWhile isPySpace
      let r3 := r2.drop ws2.length
      match r3.head? with
      | some x =>
        if ¬ nums.isEmpty ∧ zhangTypo x then
          '第' :: (ws1 ++ nums ++ ws2 ++ '章' :: normSub2Go fuel (r3.drop 1))
        else c :: normSub2Go fuel rest
      | none => c :: normSub2Go fuel rest
    else c :: normSub2Go fuel rest

/-- `_normalize_title` from the source: `_clean_text`, the two scoped typo
substitutions, then `re.sub(r'\s+', ' ', t).strip()`. -/
def _normalize_title (title : String) : String :=
  let t := _clean_text title
  if t = "" then t
  else
    let l1 := normSub1 t.toList
    let l2 := normSub2Go (l1.length + 1) l1
    String.intercalate " " (pyWords l2.asString)

/-- Everything before the first occurrence of character `c`. -/
def strTakeUntilChar (s : String) (c : Char) : String :=
  (s.toList.takeWhile (· ≠ c)).asString

/-- Whether a URL reference carries its own scheme (`http:`, `javascript:` …);
`urljoin` returns such references unchanged. -/
def hasScheme (u : String) : Bool :=
  let p := u.toList.takeWhile Char.isAlpha
  ¬ p.isEmpty ∧ (u.toList.drop p.length).head? = some ':'

/-- Split an absolute URL into `scheme://host` and the rest (path onwards);
`none` when the URL has no `://`. -/
def schemeHostAndPath (u : String) : Option (String × String) :=
  match idxOfSubGo (u.length + 1) u.toList "://".toList with
  | some i =>
    let pre := (u.toList.take i).asString
    let post := (u.toList.drop (i + 3)).asString
    let host := strTakeUntilChar post '/'
    some (pre ++ "://" ++ host, (post.toList.drop host.length).asString)
  | none => none

/-- `p[: p.rfind('/') + 1]` — the directory prefix of a path, empty when the
path holds no slash. -/
def lastSlashPrefix (p : String) : String :=
  ((p.toList.reverse.dropWhile (· ≠ '/')).reverse).asString

/-- Model of `urllib.parse.urljoin` for the reference shapes this code base
produces (absolute references, host-relative `/...`, document-relative
`name.html`, fragment/query-only).  Dot-segment resolution is not modelled. -/
def pyUrljoin (base url : String) : String :=
  if url = "" then base
  else if hasScheme url then url
  else
    match schemeHostAndPath base with
    | some (sh, bpath) =>
      if strStartsWith url "//" then (strTakeUntilChar base ':') ++ ":" ++ url
      else if strStartsWith url "/" then sh ++ url
      else if strStartsWith url "#" ∨ strStartsWith url "?" then base ++ url
      else
        let bdir := lastSlashPrefix bpath
        sh ++ (if bdir = "" then "/" else bdir) ++ url
    | none => url

/-- `_abs_url` from the source: `urljoin(base_url, href).split('#')[0].split('?')[0]`,
with empty `href` mapped to the empty string. -/
def _abs_url (base hrefRaw : String) : String :=
  if hrefRaw = "" then ""
  else strTakeUntilChar (strTakeUntilChar (pyUrljoin base hrefRaw) '#') '?'

/-- `urlparse(u).path` for the URL shapes met here: strip `scheme://host`,
then strip query and fragment. -/
def urlPath (u : String) : String :=
  match schemeHostAndPath u with
  | some (_, p) => strTakeUntilChar (strTakeUntilChar p '#') '?'
  | none => strTakeUntilChar (strTakeUntilChar u '#') '?'

/-- `_is_chapter_href` from the source. -/
def _is_chapter_href (href : String) : Bool :=
  if href = "" then false
  else
    let h := pyStrip href
    if strStartsWith (pyLower h) "javascript:" ∨ strStartsWith h "#" then false
    else strEndsWith (pyLower h) ".html"

/-- The `/class\\d+-` alternative of `_RE_NAV_PATH` (the doubled backslash in
the source's raw string makes it a literal backslash followed by a run of the
letter `d` and a dash). -/
def navClassGo : Nat → List Char → Bool
  | 0, _ => false
  | _ + 1, [] => false
  | fuel + 1, l =>
    (match l with
     | '/' :: 'c' :: 'l' :: 'a' :: 's' :: 's' :: '\\' :: r =>
       let ds := r.takeWhile (· = 'd')
       (¬ ds.isEmpty ∧ (r.drop ds.length).head? = some '-' : Bool)
     | _ => false) || navClassGo fuel (l.drop 1)

/-- `_is_nav_path` from the source: `_RE_NAV_PATH.search(urlparse(url).path)`
(the pattern is case-insensitive, so the path is lowered first). -/
def _is_nav_path (url : String) : Bool :=
  let path := pyLower (urlPath url)
  containsSub path "/sort/" ∨ containsSub path "/author/" ∨ containsSub path "/fullbook/" ∨
  containsSub path "/mybook" ∨ containsSub path "/cover/" ∨ containsSub path "/index" ∨
  navClassGo (path.length + 1) path.toList ∨
  containsSub path "/quanben" ∨ containsSub path "/top" ∨ containsSub path "/dll" ∨
  containsSub path "/user/"

/-- `_is_noise_href` from the source. -/
def _is_noise_href (hrefRaw : String) : Bool :=
  if hrefRaw = "" then false
  else
    let s := pyLower (pyStrip hrefRaw)
    if strStartsWith s "#" then true
    else if containsSub s "#footer" ∨ containsSub s "#bottom" ∨
            (containsSub s "footer" ∧ containsSub s ".html") then true
    else (containsSub s "底部" ∨ containsSub s "页底") ∧
         (strStartsWith s "javascript:" ∨ containsSub s "#" ∨ containsSub s ".html")

/-- `_is_noise_title` from the source (`_RE_NOISE_TITLE` on the normalized
title). -/
def _is_noise_title (title : String) : Bool :=
  let t := _normalize_title title
  if t = "" then false
  else containsSub t "直达页面底部" ∨ containsSub t "直达底部" ∨ containsSub t "直达底" ∨
       containsSub t "加入书架"

/-- `_RE_NUM_HTML_TAIL` — `(\d+)\.html$`, case-insensitive: the maximal ASCII
digit run immediately before a final `.html`. -/
def urlTailNum (u : String) : Option Nat :=
  if strEndsWith (pyLower u) ".html" then
    let l := u.toList
    let pre := l.take (l.length - 5)
    let ds := (pre.reverse.takeWhile Char.isDigit).reverse
    if ds.isEmpty then none else some (digitsToNat ds)
  else none

/-- Character class `[0-9０-９零〇一二三四五六七八九十百千万]` of
`_RE_TITLE_CHAPNUM`. -/
def chapnumGroupChar (c : Char) : Bool :=
  c.isDigit ∨ isFullwidthDigit c ∨ (chnDigit c).isSome ∨ (chnUnit c).isSome

/-- Attempt the tail of `_RE_TITLE_CHAPNUM` right after a `第`:
`\s*([class]+)\s*[章掌回集卷]`, returning the captured numeral run. -/
def titleChapnumAt (l : List Char) : Option (List Char) :=
  let l1 := l.dropWhile isPySpace
  let ds := l1.takeWhile chapnumGroupChar
  if ds.isEmpty then none
  else
    let l2 := (l1.drop ds.length).dropWhile isPySpace
    match l2.head? with
    | some x =>
      if x = '章' ∨ x = '掌' ∨ x = '回' ∨ x = '集' ∨ x = '卷' then some ds else none
    | none => none

/-- Leftmost match of `_RE_TITLE_CHAPNUM` (`第\s*([0-9０-９零〇...万]+)\s*[章掌回集卷]`). -/
def findTitleChapnum : Nat → List Char → Option (List Char)
  | 0, _ => none
  | _ + 1, [] => none
  | fuel + 1, c :: rest =>
    if c = '第' then
      match titleChapnumAt rest with
      | some ds => some ds
      | none => findTitleChapnum fuel rest
    else findTitleChapnum fuel rest

/-- Leftmost match of `(?<!\d)(\d{1,6})(?!\d)`: the first maximal ASCII digit
run of length at most 6. -/
def bareNumGo : Nat → List Char → Option Nat
  | 0, _ => none
  | _ + 1, [] => none
  | fuel + 1, c :: rest =>
    if c.isDigit then
      let run := c :: rest.takeWhile Char.isDigit
      if run.length ≤ 6 then some (digitsToNat run)
      else bareNumGo fuel (rest.dropWhile Char.isDigit)
    else bareNumGo fuel rest

/-- `_parse_chapnum(t, u)` from the source: URL tail digits first, then the
`第…章` pattern on the normalized title (ASCII after full-width folding via
`int`, otherwise the Chinese numeral parser), then a bare 1–6 digit run, and
finally the URL tail pattern again (reachable only when the first URL probe
already failed, hence equal behaviour). -/
def _parse_chapnum (t : String) (u : String) : Option Nat :=
  match (if u = "" then none else urlTailNum u) with
  | some n => some n
  | none =>
    let r :=
      if t = "" then none
      else
        let norm := _normalize_title t
        let nl := norm.toList
        let first :=
          match findTitleChapnum (nl.length + 1) nl with
          | some ds =>
            let s2 := pyStripL (ds.map foldFullwidth)
            if ¬ s2.isEmpty ∧ s2.all Char.isDigit then some (digitsToNat s2)
            else _chinese_numeral_to_int s2.asString
          | none => none
        match first with
        | some n => some n
        | none => bareNumGo (nl.length + 1) nl
    match r with
    | some n => some n
    | none => if u = "" then none else urlTailNum u

/-!
## DOM model

A parsed HTML document (`BeautifulSoup` output) is a tree of element and
text nodes.  `Forest` is the sibling list of a node; attribute values are
kept as raw strings (the `class` attribute is space-separated, as in HTML).
-/

mutual
inductive Node where
  | text : String → Node
  | elem : String → List (String × String) → Forest → Node
deriving Repr, DecidableEq
inductive Forest where
  | nil : Forest
  | cons : Node → Forest → Forest
deriving Repr, DecidableEq
end

/-- Build a `Forest` from a list of nodes. -/
def Forest.ofList : List Node → Forest
  | [] => .nil
  | n :: rest => .cons n (Forest.ofList rest)

/-- Element-node constructor taking a plain list of children. -/
def el (tag : String) (attrs : List (String × String)) (children : List Node) : Node :=
  .elem tag attrs (Forest.ofList children)

/-- Text-node constructor. -/
def tx (s : String) : Node := .text s

/-- `tag.get(key)`: attribute lookup; text nodes have no attributes. -/
def getAttr (n : Node) (key : String) : Option String :=
  match n with
  | .text _ => none
  | .elem _ attrs _ => attrs.lookup key

/-- `tag.get(key) or default` style lookup. -/
def getAttrD (n : Node) (key : String) (d : String) : String := (getAttr n key).getD d

/-- The tag name of an element node (`None`/absent for text nodes). -/
def tagOf : Node → Option String
  | .text _ => none
  | .elem t _ _ => some t

/-- Whether `n` is an element with tag `t`. -/
def isTag (t : String) (n : Node) : Bool := tagOf n = some t

/-- The class list of a node (`class` attribute split on whitespace, as
BeautifulSoup's multi-valued attribute handling does). -/
def classList (n : Node) : List String := pyWords (getAttrD n "class" "")

/-- `class_=c` matching: `c` is among the node's classes. -/
def hasClass (c : String) (n : Node) : Bool := (classList n).contains c

mutual
/-- All element descendants of a node, strictly below it, in document
(preorder) order — the order `find_all` yields matches in. -/
def descElems : Node → List Node
  | .text _ => []
  | .elem _ _ cs => descForest cs
/-- All element nodes in a forest and below, in document order. -/
def descForest : Forest → List Node
  | .nil => []
  | .cons c rest =>
    (match c with
     | .elem _ _ _ => [c]
     | .text _ => []) ++ descElems c ++ descForest rest
end

mutual
/-- The raw strings of all text descendants, in document order. -/
def textsN : Node → List String
  | .text s => [s]
  | .elem _ _ cs => textsF cs
/-- Text strings of a forest, in document order. -/
def textsF : Forest → List String
  | .nil => []
  | .cons c rest => textsN c ++ textsF rest
end

/-- `tag.get_text(sep, strip=...)`: join the descendant strings with the
separator; with `strip=True` each string is stripped and empty results are
dropped. -/
def getText (sep : String) (strip : Bool) (n : Node) : String :=
  if strip then String.intercalate sep (((textsN n).map pyStrip).filter (· ≠ ""))
  else String.intercalate sep (textsN n)

mutual
/-- `str(tag)` — serialize a node back to HTML source (entity escaping of
text, bs4's void-element forms and quote choices are not modelled; the
attribute order is the stored order). -/
def renderNode : Node → String
  | .text s => s
  | .elem t attrs cs =>
    "<" ++ t ++ (attrs.map (fun kv => " " ++ kv.1 ++ "=\"" ++ kv.2 ++ "\"")).foldl (· ++ ·) ""
      ++ ">" ++ renderForest cs ++ "</" ++ t ++ ">"
/-- Serialize a forest. -/
def renderForest : Forest → String
  | .nil => ""
  | .cons c rest => renderNode c ++ renderForest rest
end

/-- `find_all(t)` below a node. -/
def findAllTag (t : String) (n : Node) : List Node := (descElems n).filter (isTag t)

/-- `find(id=idv)`: first element in document order with the given id. -/
def findById (n : Node) (idv : String) : Option Node :=
  (descElems n).find? (fun e => getAttr e "id" = some idv)

/-- First descendant satisfying a predicate (`find`). -/
def findFirst (p : Node → Bool) (n : Node) : Option Node := (descElems n).find? p

/-- `find_all("a", href=True)`: anchor elements that carry an `href`
attribute, in document order. -/
def anchorsWithHref (n : Node) : List Node :=
  (descElems n).filter (fun a => isTag "a" a ∧ (getAttr a "href").isSome)

/-- Number of `li` descendants (`len(x.find_all("li"))`). -/
def liCount (n : Node) : Nat := (findAllTag "li" n).length

/-- The `dd` siblings following a `dt`, up to the next `dt` — the
`next_sibling` walk of `_extract_from_dl_structure`: text nodes and other
elements are skipped, a `dt` stops the walk. -/
def ddsAfter : Forest → List Node
  | .nil => []
  | .cons c rest =>
    if isTag "dt" c then []
    else (if isTag "dd" c then [c] else []) ++ ddsAfter rest

mutual
/-- All `dt` elements below a forest in document order, each paired with its
following-sibling `dd` group (the source iterates `dl.find_all("dt")` and
walks `next_sibling` from each). -/
def dtGroupsF : Forest → List (Node × List Node)
  | .nil => []
  | .cons c rest =>
    (if isTag "dt" c then [(c, ddsAfter rest)] else []) ++ dtGroupsN c ++ dtGroupsF rest
/-- `dt` groups below a single node. -/
def dtGroupsN : Node → List (Node × List Node)
  | .text _ => []
  | .elem _ _ cs => dtGroupsF cs
end

mutual
/-- All `dl` elements in document order, each flagged with whether some
ancestor carries `id="list"` (the ancestor walk in the weak fallback of
`_extract_from_dl_structure`). -/
def dlsF (inList : Bool) : Forest → List (Node × Bool)
  | .nil => []
  | .cons c rest => dlsN inList c ++ dlsF inList rest
/-- `dl` elements below one node, with the ancestor-`#list` flag. -/
def dlsN : Bool → Node → List (Node × Bool)
  | _, .text _ => []
  | inList, n@(.elem t attrs cs) =>
    (if t = "dl" then [(n, inList)] else []) ++
      dlsF (inList ∨ attrs.lookup "id" = some "list") cs
end

mutual
/-- First `dl` element (document order) having an ancestor with `id="list"`
— `soup.select_one("#list dl")`. -/
def selListDlF (inList : Bool) : Forest → Option Node
  | .nil => none
  | .cons c rest =>
    match selListDlN inList c with
    | some d => some d
    | none => selListDlF inList rest
/-- `#list dl` search below one node. -/
def selListDlN : Bool → Node → Option Node
  | _, .text _ => none
  | inList, n@(.elem t attrs cs) =>
    if t = "dl" ∧ inList then some n
    else selListDlF (inList ∨ attrs.lookup "id" = some "list") cs
end

mutual
/-- All `ul.chapter` elements in document order, each with its parent node
and its preceding-sibling list (context needed by the heuristic container
selection: parent text and `previous_siblings`). -/
def ulCtxF (parent : Node) (before : List Node) : Forest → List (Node × Node × List Node)
  | .nil => []
  | .cons c rest =>
    (if isTag "ul" c ∧ hasClass "chapter" c then [(c, parent, before)] else []) ++
      ulCtxN c ++ ulCtxF parent (before ++ [c]) rest
/-- `ul.chapter` context triples below one node. -/
def ulCtxN : Node → List (Node × Node × List Node)
  | .text _ => []
  | n@(.elem _ _ cs) => ulCtxF n [] cs
end

/-- First following sibling that is a `ul.chapter` (the sibling walk of the
`正文`-intro strategy in `_extract_entries_from_paged_html`: text nodes and
non-matching elements are skipped). -/
def firstUlChapterSib : Forest → Option Node
  | .nil => none
  | .cons c rest =>
    if isTag "ul" c ∧ hasClass "chapter" c then some c else firstUlChapterSib rest

mutual
/-- Document-order search for the first `div.intro` whose stripped text is
`正文` and that has a following `ul.chapter` sibling; returns that sibling. -/
def introUlF : Forest → Option Node
  | .nil => none
  | .cons c rest =>
    match
      (if isTag "div" c ∧ hasClass "intro" c ∧ getText "" true c = "正文" then
        firstUlChapterSib rest
      else none) with
    | some u => some u
    | none =>
      match introUlN c with
      | some u => some u
      | none => introUlF rest
/-- `正文`-intro search below one node. -/
def introUlN : Node → Option Node
  | .text _ => none
  | .elem _ _ cs => introUlF cs
end

/-!
## Chapter entries
-/

/-- A pre-finalization chapter entry (`{"title": str|None, "url": str}`). -/
structure RawEntry where
  title : Option String
  url : String
deriving Repr, DecidableEq

/-- A finalized chapter entry
(`{'index': i, 'title': t, 'url': u, 'chapter_num': n|None}`). -/
structure ChapterEntry where
  index : Nat
  title : String
  url : String
  chapter_num : Option Nat
deriving Repr, DecidableEq

/-- `_entry_from_anchor` from the source. -/
def _entry_from_anchor (a : Node) (base : String) : Option RawEntry :=
  let hrefRaw := pyStrip (getAttrD a "href" "")
  if hrefRaw = "" ∨ _is_noise_href hrefRaw then none
  else
    let href := _abs_url base hrefRaw
    if ¬ _is_chapter_href href ∨ _is_nav_path href then none
    else
      let title := _normalize_title (_clean_text (getText " " true a))
      if _is_noise_title title then none
      else some ⟨if title = "" then none else some title, href⟩

/-- `re.search(r'正文卷|正文|第.*卷', dt_text)`: the third alternative asks for
a `第` with a later `卷` (cleaned text holds no newline, so `.` is unrestricted). -/
def reMainVol (t : String) : Bool :=
  containsSub t "正文卷" || containsSub t "正文" ||
  (match t.toList.dropWhile (· ≠ '第') with
   | _ :: rest => rest.contains '卷'
   | [] => false)

/-- `re.search(r'最新章节|最新|更新', dt_text)`. -/
def reLatest (t : String) : Bool :=
  containsSub t "最新章节" ∨ containsSub t "最新" ∨ containsSub t "更新"

/-- Entries of one `dd` group: `dd.find("a", href=True)` then
`_entry_from_anchor`, skipping misses. -/
def dlGroupEntries (base : String) (dds : List Node) : List RawEntry :=
  dds.filterMap (fun dd => (anchorsWithHref dd).head?.bind (fun a => _entry_from_anchor a base))

/-- The classification loop of `_extract_from_dl_structure`: accumulate the
`正文` groups and the `最新` groups over all `dl` elements in order. -/
def dlMainLatest (base : String) (dls : List (Node × Bool)) :
    List RawEntry × List RawEntry :=
  dls.foldl (fun acc dlp =>
    (dtGroupsN dlp.1).foldl (fun acc2 g =>
      let t := _clean_text (getText "" false g.1)
      if reMainVol t then (acc2.1 ++ dlGroupEntries base g.2, acc2.2)
      else if reLatest t then (acc2.1, acc2.2 ++ dlGroupEntries base g.2)
      else acc2) acc) ([], [])

/-- The weak fallback of `_extract_from_dl_structure`: collect every `dd > a`
of each `dl`; inside a `#list` ancestor the list is trusted at ≥ 5 entries,
globally only at ≥ 20. -/
def dlFallbackGo (base : String) : List (Node × Bool) → List RawEntry → List RawEntry
  | [], acc => if 20 ≤ acc.length then acc else []
  | dlp :: rest, acc =>
    let acc2 := acc ++ (findAllTag "dd" dlp.1).filterMap
      (fun dd => (anchorsWithHref dd).head?.bind (fun a => _entry_from_anchor a base))
    if dlp.2 ∧ 5 ≤ acc2.length then acc2 else dlFallbackGo base rest acc2

/-- `_extract_from_dl_structure` from the source (each `dl` carries its
ancestor-`#list` flag): prefer the `正文卷` groups, else the reversed
`最新章节` groups, else the `dd > a` fallback. -/
def _extract_from_dl_structure (dls : List (Node × Bool)) (base : String) : List RawEntry :=
  let ml := dlMainLatest base dls
  if ¬ ml.1.isEmpty then ml.1
  else if ¬ ml.2.isEmpty then ml.2.reverse
  else dlFallbackGo base dls []

/-- First `ul.chapter` descendant (`el.find("ul", class_="chapter")`). -/
def ulChapterIn (n : Node) : Option Node :=
  findFirst (fun e => isTag "ul" e ∧ hasClass "chapter" e) n

/-- Container strategies 1–2: `id="allChapters2"` (itself a `ul.chapter` or a
`ul.chapter` inside it), then a `ul.chapter` inside `id="allChapters"`. -/
def containerById (doc : Node) : Option Node :=
  let fromA2 :=
    match findById doc "allChapters2" with
    | some e => if isTag "ul" e ∧ hasClass "chapter" e then some e else ulChapterIn e
    | none => none
  match fromA2 with
  | some u => some u
  | none =>
    match findById doc "allChapters" with
    | some e2 => ulChapterIn e2
    | none => none

/-- `_RE_CHAPTER_CONTAINER_HINT`: `全部章节|全部章|全部目录`. -/
def containerHint (t : String) : Bool :=
  containsSub t "全部章节" ∨ containsSub t "全部章" ∨ containsSub t "全部目录"

/-- Text of a previous sibling, as the heuristic reads it: tags via
`get_text(" ", strip=True)`, strings via `strip()`. -/
def sibText (n : Node) : String :=
  match n with
  | .text s => pyStrip s
  | _ => getText " " true n

/-- Container strategy 3a: the first `ul.chapter` whose parent text, or some
previous sibling's text, shows the `全部章节` hint. -/
def ulHintPick (ctxs : List (Node × Node × List Node)) : Option Node :=
  (ctxs.find? (fun c =>
    (let pt := getText " " true c.2.1
     pt ≠ "" ∧ containerHint pt) ∨
    c.2.2.any (fun sib => let t := sibText sib; t ≠ "" ∧ containerHint t))).map (·.1)

/-- `sorted(uls, key=lambda x: len(x.find_all("li")), reverse=True)[0]` —
Python's stable descending sort puts the earliest `ul` with the maximal
`li` count first. -/
def maxLiUl (uls : List Node) : Option Node :=
  match uls with
  | [] => none
  | u :: rest => some (rest.foldl (fun best v => if liCount best < liCount v then v else best) u)

/-- Container strategy 3: hint pick, else the largest list accepted only at
≥ 5 `li` items. -/
def pickUlCandidate (ctxs : List (Node × Node × List Node)) : Option Node :=
  match ulHintPick ctxs with
  | some u => some u
  | none =>
    match maxLiUl (ctxs.map (·.1)) with
    | some u => if 5 ≤ liCount u then some u else none
    | none => none

/-- The container resolution of the main extractor (strategies 1–3;
strategy 4, the whole-page scan, corresponds to the `none` result). -/
def primaryContainer (doc : Node) : Option Node :=
  match containerById doc with
  | some u => some u
  | none => pickUlCandidate (ulCtxN doc)

/-- The anchor collection loop with its first-seen URL dedup set. -/
def collectEntriesGo (base : String) : List Node → List RawEntry → List String → List RawEntry
  | [], acc, _ => acc
  | a :: rest, acc, seen =>
    match _entry_from_anchor a base with
    | none => collectEntriesGo base rest acc seen
    | some e =>
      if seen.contains e.url then collectEntriesGo base rest acc seen
      else collectEntriesGo base rest (acc ++ [e]) (seen ++ [e.url])

/-- Collect entries from a list of anchors in document order, deduplicating
by absolute URL as the source loops do. -/
def collectEntries (base : String) (ans : List Node) : List RawEntry :=
  collectEntriesGo base ans [] []

/-!
## The restricted regex passes over the serialized container

`_RE_ANCHOR_IN_UL` (`<a\s+[^>]*href="(\d+\.html)"[^>]*>([^<]+)</a>`) and the
three gap-filling patterns all describe an anchor tag whose `href` value is
exactly `digits.html`; they are modelled by one scanner yielding the href
group and the inner text of each such anchor, left to right.
-/

/-- One match of the anchor shape in the serialized HTML. -/
structure AnchorMatch where
  href : String
  inner : String
deriving Repr, DecidableEq

/-- After `href="`, expect `(\d+\.html)"`; returns the captured group and the
remainder after the closing quote. -/
def scanHrefDigits (l : List Char) : Option (List Char × List Char) :=
  let ds := l.takeWhile Char.isDigit
  if ds.isEmpty then none
  else
    match l.drop ds.length with
    | '.' :: 'h' :: 't' :: 'm' :: 'l' :: '"' :: rest =>
      some (ds ++ ['.', 'h', 't', 'm', 'l'], rest)
    | _ => none

/-- Scan inside an opened `<a` tag (stopping at `>`) for `href="`, then the
digits group. -/
def scanTagForHref : Nat → List Char → Option (List Char × List Char)
  | 0, _ => none
  | _ + 1, [] => none
  | fuel + 1, l@(c :: rest) =>
    if c = '>' then none
    else
      match l with
      | 'h' :: 'r' :: 'e' :: 'f' :: '=' :: '"' :: r2 => scanHrefDigits r2
      | _ => scanTagForHref fuel rest

/-- Skip the rest of the tag (`[^>]*>`). -/
def skipToGt (l : List Char) : Option (List Char) :=
  match l.dropWhile (· ≠ '>') with
  | '>' :: rest => some rest
  | _ => none

/-- The inner text (`[^<]*`) up to a closing `</a>`. -/
def scanInner (l : List Char) : Option (List Char × List Char) :=
  let inner := l.takeWhile (· ≠ '<')
  match l.drop inner.length with
  | '<' :: '/' :: 'a' :: '>' :: rest => some (inner, rest)
  | _ => none

/-- Try to match the anchor shape at this exact position; on success also
return the remainder (matches never overlap, as with `finditer`). -/
def matchAnchorAt (l : List Char) : Option (AnchorMatch × List Char) :=
  match l with
  | '<' :: 'a' :: c :: rest =>
    if isPySpace c then
      match scanTagForHref (rest.length + 2) (c :: rest) with
      | some (href, afterQuote) =>
        match skipToGt afterQuote with
        | some afterGt =>
          match scanInner afterGt with
          | some (inner, restAfter) => some (⟨href.asString, inner.asString⟩, restAfter)
          | none => none
        | none => none
      | none => none
    else none
  | _ => none

/-- All anchor-shape matches, left to right, resuming after each match. -/
def scanAnchorsGo : Nat → List Char → List AnchorMatch
  | 0, _ => []
  | _ + 1, [] => []
  | fuel + 1, l@(_ :: rest) =>
    match matchAnchorAt l with
    | some (am, restAfter) => am :: scanAnchorsGo fuel restAfter
    | none => scanAnchorsGo fuel rest

/-- `_supplement_entries_from_ul` from the source: re-scan the serialized
container for anchors the structured pass missed (`_RE_ANCHOR_IN_UL` needs a
nonempty inner text); new URLs are appended. -/
def _supplement_entries_from_ul (entries : List RawEntry) (ul : Node) (base : String) :
    List RawEntry :=
  let ulHtml := renderNode ul
  let ams := (scanAnchorsGo (ulHtml.length + 1) ulHtml.toList).filter (fun am => am.inner ≠ "")
  (ams.foldl (fun (acc : List RawEntry × List String) am =>
    let title := _normalize_title (_clean_text am.inner)
    let urlAbs := _abs_url base am.href
    if _is_chapter_href urlAbs ∧ ¬ acc.2.contains urlAbs then
      (acc.1 ++ [⟨if title = "" then none else some title, urlAbs⟩], acc.2 ++ [urlAbs])
    else acc) (entries, entries.map (fun e => e.url))).1

/-!
## Gap filling
-/

/-- The chapter numbers the gap-filling pass can read off the entries:
URL tail digits first, `_parse_chapnum` as fallback. -/
def numsOf (entries : List RawEntry) : List Nat :=
  entries.filterMap (fun e =>
    match urlTailNum e.url with
    | some n => some n
    | none => _parse_chapnum (e.title.getD "") e.url)

/-- Inner-text test for the first two gap patterns:
`\s*第\s*0*N\s*[章|掌][^<]*` anchored at the start of the anchor text
(`term` is `章` or `掌`). -/
def gapPat (term : Char) (n : Nat) (inner : String) : Bool :=
  match inner.toList.dropWhile isPySpace with
  | '第' :: r =>
    let r1 := r.dropWhile isPySpace
    if n = 0 then
      let zs := r1.takeWhile (· = '0')
      let r3 := (r1.drop zs.length).dropWhile isPySpace
      ¬ zs.isEmpty ∧ r3.head? = some term
    else
      let r2 := r1.dropWhile (· = '0')
      let ds := (toString n).toList
      if r2.take ds.length = ds then
        let r3 := (r2.drop ds.length).dropWhile isPySpace
        r3.head? = some term
      else false
  | _ => false

/-- On a pattern hit: title from the anchor text (synthesized when empty),
absolute URL, and `None` when the URL is already known — after which the
pattern loop breaks either way. -/
def gapFoundOf (base : String) (n : Nat) (existing : List String) (am : AnchorMatch) :
    Option RawEntry :=
  let titleText :=
    _normalize_title (_clean_text (if am.inner = "" then "第" ++ toString n ++ "章" else am.inner))
  let urlAbs := _abs_url base am.href
  if existing.contains urlAbs then none else some ⟨some titleText, urlAbs⟩

/-- One missing-number probe: the three patterns in order, first match wins
(`re.search` returns the earliest anchor). -/
def gapProbeOne (ams : List AnchorMatch) (base : String) (existing : List String) (n : Nat) :
    Option RawEntry :=
  match ams.find? (fun am => gapPat '章' n am.inner) with
  | some am => gapFoundOf base n existing am
  | none =>
    match ams.find? (fun am => gapPat '掌' n am.inner) with
    | some am => gapFoundOf base n existing am
    | none =>
      match ams.find? (fun am => containsSub am.inner (toString n)) with
      | some am => gapFoundOf base n existing am
      | none => none

/-- The probe loop over the capped missing numbers, appending found entries
and tracking the known URLs. -/
def gapLoop (ams : List AnchorMatch) (base : String) :
    List Nat → List RawEntry → List String → List RawEntry
  | [], es, _ => es
  | n :: rest, es, ex =>
    match gapProbeOne ams base ex n with
    | some e => gapLoop ams base rest (es ++ [e]) (ex ++ [e.url])
    | none => gapLoop ams base rest es ex

/-- The probing half of the gap-filling pass; it reads only the serialized
HTML of the chosen container (`ul_html = str(all_chapters_ul)`). -/
def gapFillFromHtml (ulHtml : String) (base : String) (entries : List RawEntry)
    (missingCapped : List Nat) : List RawEntry :=
  gapLoop (scanAnchorsGo (ulHtml.length + 1) ulHtml.toList) base missingCapped entries
    (entries.map (fun e => e.url))

/-- The missing subset of `min..max` over the observed chapter numbers,
ascending, as `sorted(expected - present)` produces (`min`/`max` are the
ends of the sorted number list). -/
def gapMissing (nums : List Nat) : List Nat :=
  let mn := nums.foldl min (nums.headD 0)
  let mx := nums.foldl max 0
  (List.range' mn (mx + 1 - mn)).filter (fun k => ¬ nums.contains k)

/-- The gap-filling stage of the extractor: it probes only when at least 5
entries yielded numbers and a container was chosen; the missing list is
capped at 120 when the entry list exceeds 1500, else at 240, and the probes
read only the serialized container HTML. -/
def gapFillStage (entries : List RawEntry) (container : Option Node) (base : String) :
    List RawEntry :=
  let nums := numsOf entries
  if 5 ≤ nums.length then
    match container with
    | some ul =>
      let missing := gapMissing nums
      if ¬ missing.isEmpty then
        let limit := if 1500 < entries.length then 120 else 240
        gapFillFromHtml (renderNode ul) base entries (missing.take limit)
      else entries
    | none => entries
  else entries

/-!
## Finalization
-/

/-- The first-seen URL dedup of `_finalize_entries` (the source uses a seen
set and an append loop). -/
def dedupGo : List RawEntry → List String → List RawEntry
  | [], _ => []
  | e :: rest, seen =>
    if seen.contains e.url then dedupGo rest seen
    else e :: dedupGo rest (e.url :: seen)

/-- `_finalize_entries` from the source: dedup by URL preserving first-seen
order, then assign 1-based indices, resolve `chapter_num` (URL tail first,
title parse as fallback) and synthesize `第N章` titles for empty ones. -/
def _finalize_entries (entries : List RawEntry) : List ChapterEntry :=
  let cleaned := dedupGo entries []
  cleaned.enum.map (fun p =>
    let i := p.1 + 1
    let e := p.2
    let chapnum :=
      match urlTailNum e.url with
      | some n => some n
      | none => _parse_chapnum (e.title.getD "") e.url
    let tdef :=
      match chapnum with
      | none => "第" ++ toString i ++ "章"
      | some n => "第" ++ toString n ++ "章"
    let t0 :=
      match e.title with
      | some t => if t = "" then tdef else t
      | none => tdef
    ⟨i, _normalize_title t0, e.url, chapnum⟩)

/-!
## Pagination discovery and merge
-/

/-- Match a final path segment against `(?:index|list)_(\d+)\.html`. -/
def pagSegNum (seg : List Char) : Option Nat :=
  let chk := fun (pre : List Char) =>
    if seg.take pre.length = pre then
      let r := seg.drop pre.length
      let ds := r.takeWhile Char.isDigit
      if ¬ ds.isEmpty ∧ r.drop ds.length = ['.', 'h', 't', 'm', 'l'] then
        some (digitsToNat ds)
      else none
    else none
  match chk "index_".toList with
  | some n => some n
  | none => chk "list_".toList

/-- `_RE_PAGINATION` — `(?:^|/)(?:index|list)_(\d+)\.html$` (case-insensitive)
applied to a URL path: the final segment must have the pagination shape. -/
def paginationIdx (path : String) : Option Nat :=
  pagSegNum (((pyLower path).toList.reverse.takeWhile (· ≠ '/')).reverse)

/-- The page-picker collection of the extractor: page 1 is the base URL, and
every `option` value resolving to a pagination path with number ≥ 2 adds a
page. -/
def optionPages (doc : Node) (base : String) : List (Nat × String) :=
  (1, base) :: (findAllTag "option" doc).filterMap (fun opt =>
    let val := pyStrip (getAttrD opt "value" "")
    if val = "" then none
    else
      let absu := _abs_url base val
      match paginationIdx (urlPath absu) with
      | some idx => if 2 ≤ idx then some (idx, absu) else none
      | none => none)

/-- First-seen dedup of the page list by URL (the source's `seenp` set). -/
def dedupPagesGo : List (Nat × String) → List String → List (Nat × String)
  | [], _ => []
  | p :: rest, seen =>
    if seen.contains p.2 then dedupPagesGo rest seen
    else p :: dedupPagesGo rest (p.2 :: seen)

/-- Stable insertion into a page list sorted by page number (equal keys keep
their original relative order, as Python's stable `sorted` does). -/
def insertPage (p : Nat × String) : List (Nat × String) → List (Nat × String)
  | [] => [p]
  | q :: rest => if q.1 ≤ p.1 then q :: insertPage p rest else p :: q :: rest

/-- Left fold of stable insertion — `sorted(pages, key=lambda x: x[0])`. -/
def sortPagesGo : List (Nat × String) → List (Nat × String) → List (Nat × String)
  | acc, [] => acc
  | acc, p :: rest => sortPagesGo (insertPage p acc) rest

/-- The final deduplicated, ascending page list of the extractor. -/
def pagesOf (doc : Node) (base : String) : List (Nat × String) :=
  sortPagesGo [] (dedupPagesGo (optionPages doc base) [])

/-- All `ul.chapter` elements of a document in document order. -/
def ulChapters (doc : Node) : List Node :=
  (descElems doc).filter (fun e => isTag "ul" e ∧ hasClass "chapter" e)

/-- `_extract_entries_from_paged_html` from the source: the `正文`-intro
adjacent `ul.chapter` first, then `#list dl`, then every `ul.chapter`. -/
def _extract_entries_from_paged_html (doc : Node) (base : String) : List RawEntry :=
  let viaIntro :=
    match introUlN doc with
    | some target =>
      let es := (anchorsWithHref target).filterMap (fun a => _entry_from_anchor a base)
      if es.isEmpty then none else some es
    | none => none
  match viaIntro with
  | some es => es
  | none =>
    let viaListDl :=
      match selListDlN false doc with
      | some dl =>
        let es := (findAllTag "dd" dl).filterMap
          (fun dd => (anchorsWithHref dd).head?.bind (fun a => _entry_from_anchor a base))
        if es.isEmpty then none else some es
      | none => none
    match viaListDl with
    | some es => es
    | none =>
      (ulChapters doc).flatMap
        (fun u => (anchorsWithHref u).filterMap (fun a => _entry_from_anchor a base))

/-- First-seen dedup of a URL list (models the source's `found` set with
insertion order). -/
def dedupStrGo : List String → List String → List String
  | [], _ => []
  | s :: rest, seen =>
    if seen.contains s then dedupStrGo rest seen else s :: dedupStrGo rest (s :: seen)

/-- `collect_pagination_urls` from the source: pagination-shaped anchors and
option values restricted to the current page's directory, excluding the
current URL itself. -/
def collectPagUrls (doc : Node) (current : String) : List String :=
  let cpath := urlPath current
  let cdir := if containsSub cpath "/" then lastSlashPrefix cpath else cpath
  let keep := fun (absu : String) =>
    let path := urlPath absu
    if (paginationIdx path).isNone then none
    else if cdir ≠ "" ∧ ¬ strStartsWith path cdir then none
    else if absu ≠ "" ∧ absu ≠ current then some absu else none
  let fromA := (findAllTag "a" doc).filterMap (fun a =>
    let rel := pyStrip (getAttrD a "href" "")
    if rel = "" then none else keep (_abs_url current rel))
  let fromOpt := (findAllTag "option" doc).filterMap (fun opt =>
    let val := pyStrip (getAttrD opt "value" "")
    if val = "" then none else keep (_abs_url current val))
  dedupStrGo (fromA ++ fromOpt) []

/-- The strict per-page rebuild loop of the pagination merge: page 1 reuses
the already-fetched index document, later pages are fetched; a failed fetch
skips that page (`except Exception: continue`), and each page's entries are
concatenated in the given page order. -/
def pagedRebuild (fetch : String → Except String Node) (firstDoc : Node)
    (pages : List (Nat × String)) : List RawEntry :=
  pages.foldl (fun acc p =>
    match (if p.1 = 1 then Except.ok firstDoc else fetch p.2) with
    | .error _ => acc
    | .ok pdoc =>
      let pes := _extract_entries_from_paged_html pdoc p.2
      if pes.isEmpty then acc else acc ++ pes) []

/-- The breadth-first pagination fallback.  The source's `while` loop has no
intrinsic bound (each newly fetched page may reveal new pagination URLs), so
the embedding carries fuel; a failed fetch skips the page. -/
def bfsLoop (fetch : String → Except String Node) :
    Nat → List String → List String → List RawEntry → List RawEntry
  | 0, _, _, es => es
  | _ + 1, [], _, es => es
  | fuel + 1, purl :: queue, visited, es =>
    match fetch purl with
    | .error _ => bfsLoop fetch fuel queue visited es
    | .ok pdoc =>
      let pes := _extract_entries_from_paged_html pdoc purl
      let es2 := if pes.isEmpty then es else es ++ pes
      let fresh := (collectPagUrls pdoc purl).filter (fun u => ¬ visited.contains u)
      bfsLoop fetch fuel (queue ++ fresh) (visited ++ fresh) es2

/-- The pagination block of the extractor: when the page picker shows any
page ≥ 2, the chapter list is rebuilt from scratch strictly per page;
otherwise the BFS fallback extends the already-collected entries. -/
def paginationStage (fetch : String → Except String Node) (fuel : Nat) (doc : Node)
    (base : String) (entries : List RawEntry) : List RawEntry :=
  let pages := pagesOf doc base
  if pages.any (fun p => 2 ≤ p.1) then pagedRebuild fetch doc pages
  else
    let queue := collectPagUrls doc base
    bfsLoop fetch fuel queue (base :: queue) entries

/-!
## The full extractor
-/

/-- Outcome of parsing the raw HTML — the `_bs` boundary: `lxml` may fail on
pathological input, in which case the fallback chain ends at an empty
document. -/
inductive ParseOutcome where
  | parsed : Node → ParseOutcome
  | failed : ParseOutcome
deriving Repr, DecidableEq

/-- The empty document (`BeautifulSoup("")`). -/
def emptyDoc : Node := el "[document]" [] []

/-- `_bs` from the source: a parsed tree when parsing succeeded, the empty
document after the fallback chain otherwise (`_bs` itself never raises). -/
def _bs : ParseOutcome → Node
  | .parsed d => d
  | .failed => emptyDoc

/-- The early `dl`-structure branch of the extractor: `find_all("dl")`
nonempty and `_extract_from_dl_structure` nonempty. -/
def dlPathEntries (doc : Node) (base : String) : Option (List RawEntry) :=
  let dls := dlsN false doc
  if dls.isEmpty then none
  else
    let des := _extract_from_dl_structure dls base
    if des.isEmpty then none else some des

/-- The entry pipeline of the non-`dl` path: container selection, anchor
collection (whole page when no container), restricted supplement, gap
filling, pagination. -/
def pipelineEntries (doc : Node) (base : String) (fetch : String → Except String Node)
    (fuel : Nat) : List RawEntry :=
  let cont := primaryContainer doc
  let entries0 :=
    match cont with
    | some ul => collectEntries base (anchorsWithHref ul)
    | none => collectEntries base (anchorsWithHref doc)
  let entries1 :=
    match cont with
    | some ul => _supplement_entries_from_ul entries0 ul base
    | none => entries0
  let entries2 := gapFillStage entries1 cont base
  paginationStage fetch fuel doc base entries2

/-- The non-`dl` path of the extractor: the entry pipeline followed by
finalization. -/
def mainPipeline (doc : Node) (base : String) (fetch : String → Except String Node)
    (fuel : Nat) : Except String (List ChapterEntry) :=
  Except.ok (_finalize_entries (pipelineEntries doc base fetch fuel))

/-- `extract_chapter_list_from_index_precise_fixed` from the source.  The
index HTML enters as a `ParseOutcome` (the `_bs` boundary); `fetch` stands
for `fetch_html` composed with `_bs` on the secondary pagination pages, and
may fail with a transport error; `fuel` bounds the BFS fallback loop, which
the source leaves unbounded. -/
def extract_chapter_list_from_index_precise_fixed (po : ParseOutcome) (base : String)
    (fetch : String → Except String Node) (fuel : Nat) : Except String (List ChapterEntry) :=
  let doc := _bs po
  match dlPathEntries doc base with
  | some des => Except.ok (_finalize_entries des)
  | none => mainPipeline doc base fetch fuel

/-!
## The memory-optimized batch extractor (`IndexFetchThread`)
-/

/-- The lightweight chapter record the batch path builds
(`{"index": i, "title": t, "url": u}` — no `chapter_num`). -/
structure BatchChapter where
  index : Nat
  title : String
  url : String
deriving Repr, DecidableEq

/-- The ordered container fallbacks of `_find_chapter_container` after the
`#list dl` probe: known ids, `ul.chapter`, `div.listmain`, `div#list`; first
one holding anchors wins, else the whole document. -/
def fccFallback (doc : Node) : Node :=
  let containers : List (Option Node) :=
    [findById doc "allChapters2",
     findById doc "allChapters",
     (descElems doc).find? (fun e => isTag "ul" e ∧ hasClass "chapter" e),
     (descElems doc).find? (fun e => isTag "div" e ∧ hasClass "listmain" e),
     (descElems doc).find? (fun e => isTag "div" e ∧ getAttr e "id" = some "list")]
  match (containers.filterMap id).find? (fun c => ¬ (anchorsWithHref c).isEmpty) with
  | some c => c
  | none => doc

/-- `_find_chapter_container` from the source. -/
def _find_chapter_container (doc : Node) : Node :=
  match selListDlN false doc with
  | some dl => if ¬ (anchorsWithHref dl).isEmpty then dl else fccFallback doc
  | none => fccFallback doc

/-- The per-link loop of `_extract_chapters_in_batches`: skip empty hrefs,
non-chapter URLs and duplicates; titles are the cleaned anchor text; the
index is the 1-based processed count.  (Batch emission and garbage
collection are progress-reporting side effects with no bearing on the
returned list.) -/
def batchLoop (base : String) : List Node → List BatchChapter → List String → Nat → List BatchChapter
  | [], acc, _, _ => acc
  | link :: rest, acc, seen, processed =>
    let href := pyStrip (getAttrD link "href" "")
    if href = "" then batchLoop base rest acc seen processed
    else
      let full := _abs_url base href
      if ¬ (_is_chapter_href full ∧ ¬ _is_nav_path full) then batchLoop base rest acc seen processed
      else if seen.contains full then batchLoop base rest acc seen processed
      else
        let title := _normalize_title (_clean_text (getText "" true link))
        batchLoop base rest (acc ++ [⟨processed + 1, title, full⟩]) (seen ++ [full]) (processed + 1)

/-- `_extract_chapters_in_batches` from the source (the non-fallback path:
container found and the loop runs to completion without a stop request). -/
def _extract_chapters_in_batches (doc : Node) (base : String) : List BatchChapter :=
  batchLoop base (anchorsWithHref (_find_chapter_container doc)) [] [] 0

/-!
## Chapter content extraction
-/

/-- `(title, content, paragraphs)` of one chapter page. -/
structure ChapterContent where
  title : String
  content : String
  paragraphs : List String
deriving Repr, DecidableEq

/-- `re.sub(r"\s*[-_—|].*$", "", title).strip()`: cut at the first delimiter
together with the whitespace run right before it, then strip. -/
def titleSuffixCut (t : String) : String :=
  match t.toList.findIdx? (fun c => c = '-' ∨ c = '_' ∨ c = '—' ∨ c = '|') with
  | some i => pyStrip (((t.toList.take i).reverse.dropWhile isPySpace).reverse.asString)
  | none => pyStrip t

/-- `tag.string` — the single text child, when the tag has exactly one. -/
def titleString (n : Node) : Option String :=
  match n with
  | .elem _ _ (.cons (.text s) .nil) => some s
  | _ => none

/-- The title resolution of `extract_title_and_content_from_chapter`: first
`h1` text, else the `<title>` string with its site-name suffix cut. -/
def pageTitle (doc : Node) : String :=
  let t1 :=
    match (findAllTag "h1" doc).head? with
    | some h1 => getText "" true h1
    | none => ""
  if t1 ≠ "" then t1
  else
    match (findAllTag "title" doc).head? with
    | some tt =>
      match titleString tt with
      | some s => titleSuffixCut (pyStrip s)
      | none => ""
    | none => ""

/-- Nodes removed by `cont.select('script, style, iframe, noscript, .ads,
.advert, .paybox')` + `decompose()`. -/
def isBadNode (n : Node) : Bool :=
  (match tagOf n with
   | some t => (t = "script" ∨ t = "style" ∨ t = "iframe" ∨ t = "noscript" : Bool)
   | none => false) || hasClass "ads" n || hasClass "advert" n || hasClass "paybox" n

mutual
/-- Strip the boilerplate nodes from a subtree (the `decompose` pass). -/
def removeBadN : Node → Node
  | .text s => .text s
  | .elem t a cs => .elem t a (removeBadF cs)
/-- Strip boilerplate from a forest. -/
def removeBadF : Forest → Forest
  | .nil => .nil
  | .cons c rest =>
    if isBadNode c then removeBadF rest else .cons (removeBadN c) (removeBadF rest)
end

/-- `[ln.strip() for ln in raw.splitlines() if ln.strip()]`. -/
def splitLinesClean (raw : String) : List String :=
  ((splitLines raw).map pyStrip).filter (· ≠ "")

/-- Paragraphs of a candidate container after boilerplate removal: `<p>` tag
texts when present, else nonempty stripped lines of the container text. -/
def contParagraphs (cont : Node) : List String :=
  let c := removeBadN cont
  let ps := findAllTag "p" c
  if ¬ ps.isEmpty then
    ps.filterMap (fun p => let t := getText "\n" true p; if t = "" then none else some t)
  else splitLinesClean (getText "\n" true c)

/-- The fixed id priority list of the content extractor. -/
def contentIds : List String :=
  ["content", "chaptercontent", "contentbox", "read-content", "bookcontent", "txt", "nr1"]

/-- The fixed class priority list of the content extractor. -/
def contentClasses : List String :=
  ["content", "chapter-content", "read-content", "novel-content", "contentbox", "article",
   "maintext", "nr"]

/-- The id/class candidate collection (all class matches, in list order). -/
def contentCandidates (doc : Node) : List Node :=
  (contentIds.filterMap (fun idn => findById doc idn)) ++
  (contentClasses.flatMap (fun cls => (descElems doc).filter (hasClass cls)))

/-- The fallback pool: `div`/`article`/`section` elements whose stripped
text exceeds 120 characters, in document order. -/
def bigBlocks (doc : Node) : List Node :=
  (descElems doc).filter (fun d =>
    (isTag "div" d ∨ isTag "article" d ∨ isTag "section" d) ∧ 120 < (getText "" true d).length)

/-- One comparison step of the descending text-length sort: keep the current
best unless the next block's raw text is strictly longer (ties keep the
earlier element, as Python's stable sort does). -/
def maxTextPick (best v : Node) : Node :=
  if (getText "" false best).length < (getText "" false v).length then v else best

/-- `divs.sort(key=lambda d: len(d.get_text()), reverse=True)` then `[0]`:
the earliest element with the maximal raw text length (stable sort). -/
def maxTextBlock (ds : List Node) : Option Node :=
  match ds with
  | [] => none
  | d :: rest => some (rest.foldl maxTextPick d)

/-- `extract_title_and_content_from_chapter` from the source (the unused
`base_url` parameter is dropped). -/
def extract_title_and_content_from_chapter (doc : Node) : ChapterContent :=
  let title := pageTitle doc
  let cands0 := contentCandidates doc
  let cands :=
    if cands0.isEmpty then
      match maxTextBlock (bigBlocks doc) with
      | some d => [d]
      | none => []
    else cands0
  match cands.findSome? (fun cont =>
      let ps := contParagraphs cont
      if ps.isEmpty then none else some ps) with
  | some ps => ⟨title, String.intercalate "\n\n" ps, ps⟩
  | none =>
    let raw :=
      match (findAllTag "body" doc).head? with
      | some b => getText "\n" true b
      | none => getText "\n" true doc
    let lines := splitLinesClean raw
    ⟨title, String.intercalate "\n\n" lines, lines⟩

/-!
## `fetch_html` — transport, retry backoff and the decode chain

The network is an oracle from attempt number to a transport outcome; the
response carries status, `Content-Type` header and raw body bytes.  Codecs
are modelled structurally: strict UTF-8 and strict GB18030 validate byte
shapes (the decoded non-ASCII code points are abstracted), and the
`errors="replace"` GB18030 decode is total, as in CPython.
-/

/-- One HTTP response. -/
structure HttpResponse where
  status : Nat
  contentType : String
  body : List Nat
deriving Repr, DecidableEq

/-- Characters of a charset token (`[A-Za-z0-9_\-]`). -/
def charsetTokenChar (c : Char) : Bool := c.isAlphanum ∨ c = '_' ∨ c = '-'

/-- Scanner for `charset\s*=\s*([A-Za-z0-9_\-]+)` over a lowered string. -/
def findCharsetGo : Nat → List Char → Option String
  | 0, _ => none
  | _ + 1, [] => none
  | fuel + 1, l@(_ :: rest) =>
    match l with
    | 'c' :: 'h' :: 'a' :: 'r' :: 's' :: 'e' :: 't' :: r =>
      (match (r.dropWhile isPySpace).head? with
       | some '=' =>
         let r3 := ((r.dropWhile isPySpace).drop 1).dropWhile isPySpace
         let tok := r3.takeWhile charsetTokenChar
         if tok.isEmpty then findCharsetGo fuel rest else some tok.asString
       | _ => findCharsetGo fuel rest)
    | _ => findCharsetGo fuel rest

/-- `_detect_charset_from_headers` from the source (result lowered). -/
def _detect_charset_from_headers (ct : String) : String :=
  if ct = "" then ""
  else (findCharsetGo (ct.length + 1) (pyLower ct).toList).getD ""

/-- Bytes viewed as characters for the meta sniffing pass. -/
def byteChars (raw : List Nat) : List Char := raw.map (fun b => Char.ofNat (b % 256))

/-- Scanner for the `charset=["']?\s*([A-Za-z0-9_\-]+)` core of the two meta
patterns of `_detect_charset_from_meta`. -/
def metaCharsetGo : Nat → List Char → Option String
  | 0, _ => none
  | _ + 1, [] => none
  | fuel + 1, l@(_ :: rest) =>
    match l with
    | 'c' :: 'h' :: 'a' :: 'r' :: 's' :: 'e' :: 't' :: '=' :: r =>
      let r1 :=
        match r with
        | '"' :: rr => rr
        | '\'' :: rr => rr
        | _ => r
      let tok := (r1.dropWhile isPySpace).takeWhile charsetTokenChar
      if tok.isEmpty then metaCharsetGo fuel rest else some tok.asString
    | _ => metaCharsetGo fuel rest

/-- `_detect_charset_from_meta` from the source, simplified to the shared
core of its two regexes: a `charset=` token inside the raw bytes of a page
that holds a `<meta` tag. -/
def _detect_charset_from_meta (raw : List Nat) : String :=
  let s := pyLower (byteChars raw).asString
  if containsSub s "<meta" then (metaCharsetGo (s.length + 1) s.toList).getD "" else ""

/-- Strict UTF-8 decoding of a byte list (continuation, overlong, surrogate
and range checks as CPython enforces them). -/
def utf8DecodeGo : List Nat → Option (List Char)
  | [] => some []
  | b :: rest =>
    if b < 0x80 then (utf8DecodeGo rest).map (Char.ofNat b :: ·)
    else if b < 0xC2 then none
    else if b < 0xE0 then
      match rest with
      | b2 :: r2 =>
        if 0x80 ≤ b2 ∧ b2 < 0xC0 then
          (utf8DecodeGo r2).map (Char.ofNat ((b - 0xC0) * 64 + (b2 - 0x80)) :: ·)
        else none
      | [] => none
    else if b < 0xF0 then
      match rest with
      | b2 :: b3 :: r3 =>
        if (0x80 ≤ b2 ∧ b2 < 0xC0) ∧ (0x80 ≤ b3 ∧ b3 < 0xC0) then
          let cp := (b - 0xE0) * 4096 + (b2 - 0x80) * 64 + (b3 - 0x80)
          if cp < 0x800 ∨ (0xD800 ≤ cp ∧ cp < 0xE000) then none
          else (utf8DecodeGo r3).map (Char.ofNat cp :: ·)
        else none
      | _ => none
    else if b < 0xF5 then
      match rest with
      | b2 :: b3 :: b4 :: r4 =>
        if (0x80 ≤ b2 ∧ b2 < 0xC0) ∧ (0x80 ≤ b3 ∧ b3 < 0xC0) ∧ (0x80 ≤ b4 ∧ b4 < 0xC0) then
          let cp := (b - 0xF0) * 262144 + (b2 - 0x80) * 4096 + (b3 - 0x80) * 64 + (b4 - 0x80)
          if cp < 0x10000 ∨ 0x110000 ≤ cp then none
          else (utf8DecodeGo r4).map (Char.ofNat cp :: ·)
        else none
      | _ => none
    else none

/-- Valid second byte of a two-byte GB18030 sequence. -/
def gbTail2 (b : Nat) : Bool := (0x40 ≤ b ∧ b ≤ 0xFE) ∧ b ≠ 0x7F

/-- Second/fourth byte of a four-byte GB18030 sequence. -/
def gb4Digit (b : Nat) : Bool := 0x30 ≤ b ∧ b ≤ 0x39

/-- Strict GB18030 decoding: byte-shape validation per the encoding's
structure; multi-byte code points are abstracted to fixed CJK characters
(the claims never inspect them). -/
def gbDecodeStrict : List Nat → Option (List Char)
  | [] => some []
  | b :: rest =>
    if b < 0x80 then (gbDecodeStrict rest).map (Char.ofNat b :: ·)
    else if b = 0x80 ∨ b = 0xFF then none
    else
      match rest with
      | [] => none
      | b2 :: r2 =>
        if gb4Digit b2 then
          match r2 with
          | b3 :: b4 :: r4 =>
            if (0x81 ≤ b3 ∧ b3 ≤ 0xFE) ∧ gb4Digit b4 then
              (gbDecodeStrict r4).map ('异' :: ·)
            else none
          | _ => none
        else if gbTail2 b2 then (gbDecodeStrict r2).map ('中' :: ·)
        else none

/-- GB18030 decoding with `errors="replace"`: the same shape analysis, but an
invalid byte becomes U+FFFD and scanning resumes right after it — total, as
CPython's replacement decoding never raises (each step consumes at least one
byte; the fuel is instantiated above the input length). -/
def gbReplaceGo : Nat → List Nat → List Char
  | 0, _ => []
  | _ + 1, [] => []
  | fuel + 1, b :: rest =>
    if b < 0x80 then Char.ofNat b :: gbReplaceGo fuel rest
    else if b = 0x80 ∨ b = 0xFF then '�' :: gbReplaceGo fuel rest
    else
      match rest with
      | [] => ['�']
      | b2 :: r2 =>
        if gb4Digit b2 then
          match r2 with
          | b3 :: b4 :: r4 =>
            if (0x81 ≤ b3 ∧ b3 ≤ 0xFE) ∧ gb4Digit b4 then '异' :: gbReplaceGo fuel r4
            else '�' :: gbReplaceGo fuel rest
          | _ => '�' :: gbReplaceGo fuel rest
        else if gbTail2 b2 then '中' :: gbReplaceGo fuel r2
        else '�' :: gbReplaceGo fuel rest

/-- Total GB18030 `errors="replace"` decode. -/
def gbDecodeReplace (raw : List Nat) : List Char := gbReplaceGo (raw.length + 1) raw

/-- `_normalize_html` from the source: strip the BOM, normalize CRLF/CR. -/
def _normalize_html (txt : String) : String :=
  let t := if strStartsWith txt "﻿" then (txt.toList.drop 1).asString else txt
  strReplace (strReplace t "\r\n" "\n") "\r" "\n"

/-- `raw.decode(codec, errors="strict")` for the codecs this pipeline can
name; any other codec name behaves as a failing decode (the `LookupError` /
`UnicodeDecodeError` both land in the same per-codec `except`). -/
def decodeStrict (codec : String) (raw : List Nat) : Option String :=
  if codec = "utf-8" then (utf8DecodeGo raw).map List.asString
  else if codec = "gb18030" then (gbDecodeStrict raw).map List.asString
  else none

/-- The candidate codec list: the detected charset (with `gbk`/`gb2312`
widened to `gb18030`) followed by the fixed `utf-8`, `gb18030` pair. -/
def candidateCodecs (enc : String) : List String :=
  (if enc ≠ "" then [if enc = "gbk" ∨ enc = "gb2312" then "gb18030" else enc] else []) ++
  ["utf-8", "gb18030"]

/-- The body of one fetch attempt after the transport layer: status check
(`raise_for_status`), empty-body short-circuit, charset detection, the
strict decode chain and the final lossy GB18030 fallback.  The source's
last `except` branch (re-raising `last_err`) is unreachable because the
replacement decode is total. -/
def attemptOnce (oracle : Int → Except String HttpResponse) (a : Int) : Except String String :=
  match oracle a with
  | .error e => .error e
  | .ok resp =>
    if 400 ≤ resp.status then .error ("http status " ++ toString resp.status)
    else
      let raw := resp.body
      if raw.isEmpty then .ok ""
      else
        let encH := _detect_charset_from_headers resp.contentType
        let enc := if encH ≠ "" then encH else _detect_charset_from_meta raw
        match (candidateCodecs enc).findSome? (fun c => decodeStrict c raw) with
        | some txt => .ok (_normalize_html txt)
        | none => .ok (_normalize_html (gbDecodeReplace raw).asString)

deriving instance DecidableEq for Except

/-- The observable outcome of `fetch_html`: the returned value (`ok none`
models Python's implicit `return None` when the loop body never runs), the
number of transport attempts made, and the backoff sleeps in seconds. -/
structure FetchOutcome where
  result : Except String (Option String)
  requests : Nat
  sleeps : List ℚ
deriving Repr, DecidableEq

/-- `range(1, retries + 1)` over Python ints. -/
def pyRange1 (hi : Int) : List Int :=
  (List.range hi.toNat).map (fun i : Nat => ((1 + i : Nat) : Int))

/-- The retry loop of `fetch_html` over the remaining attempt numbers: a
successful attempt returns immediately; a failure on the final attempt
propagates its error; otherwise sleep `0.3 * attempt` and continue. -/
def fetchGo (oracle : Int → Except String HttpResponse) : List Int → FetchOutcome
  | [] => ⟨.ok none, 0, []⟩
  | a :: rest =>
    match attemptOnce oracle a with
    | .ok txt => ⟨.ok (some txt), 1, []⟩
    | .error e =>
      if rest.isEmpty then ⟨.error e, 1, []⟩
      else
        let o := fetchGo oracle rest
        ⟨o.result, o.requests + 1, (3 : ℚ) / 10 * (a : ℚ) :: o.sleeps⟩

/-- `fetch_html(url, timeout, retries)` from the source; the URL and timeout
only parameterize the transport oracle and are dropped, `retries` keeps
Python's `int` type (a non-positive value empties the loop range). -/
def fetch_html (oracle : Int → Except String HttpResponse) (retries : Int) : FetchOutcome :=
  fetchGo oracle (pyRange1 retries)

/-!
## Example documents and oracles used by the concrete witnesses
-/

/-- A fetch oracle with no reachable pages. -/
def noFetch : String → Except String Node := fun _ => .error "network unreachable"

/-- Synthetic 笔趣阁-style index: one `dl` with a `正文卷` heading and five
`dd > a` chapters in document order whose URL/title numbers are
non-monotonic (7, 2, 9, 3, 5). -/
def exDl : Node := el "html" [] [el "body" [] [
  el "dl" [] [
    el "dt" [] [tx "《测试》正文卷"],
    el "dd" [] [el "a" [("href", "7.html")] [tx "第七章"]],
    el "dd" [] [el "a" [("href", "2.html")] [tx "第二章"]],
    el "dd" [] [el "a" [("href", "9.html")] [tx "第九章"]],
    el "dd" [] [el "a" [("href", "3.html")] [tx "序言"]],
    el "dd" [] [el "a" [("href", "5.html")] [tx "第五章"]]]]]

/-- Base URL of the synthetic examples. -/
def exBase : String := "https://ex.com/book/"

/-- The raw entries the `dl` branch yields on `exDl`, in document order. -/
def exDlRaw : List RawEntry :=
  [⟨some "第七章", "https://ex.com/book/7.html"⟩,
   ⟨some "第二章", "https://ex.com/book/2.html"⟩,
   ⟨some "第九章", "https://ex.com/book/9.html"⟩,
   ⟨some "序言", "https://ex.com/book/3.html"⟩,
   ⟨some "第五章", "https://ex.com/book/5.html"⟩]

/-- The finalized output on `exDl`: document order, not numeric order. -/
def exDlFinal : List ChapterEntry :=
  [⟨1, "第七章", "https://ex.com/book/7.html", some 7⟩,
   ⟨2, "第二章", "https://ex.com/book/2.html", some 2⟩,
   ⟨3, "第九章", "https://ex.com/book/9.html", some 9⟩,
   ⟨4, "序言", "https://ex.com/book/3.html", some 3⟩,
   ⟨5, "第五章", "https://ex.com/book/5.html", some 5⟩]

/-- A minimal chapter container: one `ul.chapter` anchor with empty text. -/
def exBatch : Node := el "html" [] [el "body" [] [
  el "ul" [("class", "chapter")] [el "li" [] [el "a" [("href", "5.html")] []]]]]

/-- Second table-of-contents page of the pagination example. -/
def exPage2 : Node := el "html" [] [el "body" [] [
  el "ul" [("class", "chapter")] [
    el "li" [] [el "a" [("href", "3.html")] [tx "第三章"]],
    el "li" [] [el "a" [("href", "4.html")] [tx "第四章"]]]]]

/-- First page of the pagination example: a page-picker `option` pointing at
`index_2.html` plus a five-item `ul.chapter`. -/
def exPag : Node := el "html" [] [el "body" [] [
  el "select" [] [el "option" [("value", "index_2.html")] [tx "第2页"]],
  el "ul" [("class", "chapter")] [
    el "li" [] [el "a" [("href", "1.html")] [tx "第一章"]],
    el "li" [] [el "a" [("href", "2.html")] [tx "第二章"]],
    el "li" [] [el "a" [("href", "99.html")] [tx "旧章"]],
    el "li" [] [el "a" [("href", "98.html")] [tx "旧章二"]],
    el "li" [] [el "a" [("href", "97.html")] [tx "旧章三"]]]]]

/-- Fetch oracle of the pagination example: only `index_2.html` resolves. -/
def pagFetch : String → Except String Node := fun u =>
  if u = "https://ex.com/book/index_2.html" then .ok exPage2 else .error "404"

/-- The rebuilt-from-scratch result on `exPag`: page 1 re-extracted through
the paged extractor, then page 2, concatenated and finalized. -/
def exPagFinal : List ChapterEntry :=
  [⟨1, "第一章", "https://ex.com/book/1.html", some 1⟩,
   ⟨2, "第二章", "https://ex.com/book/2.html", some 2⟩,
   ⟨3, "旧章", "https://ex.com/book/99.html", some 99⟩,
   ⟨4, "旧章二", "https://ex.com/book/98.html", some 98⟩,
   ⟨5, "旧章三", "https://ex.com/book/97.html", some 97⟩,
   ⟨6, "第三章", "https://ex.com/book/3.html", some 3⟩,
   ⟨7, "第四章", "https://ex.com/book/4.html", some 4⟩]

/-- A 500-character text body. -/
def longText : String := (List.replicate 500 'x').asString

/-- The lone qualifying content block of the content-extraction example. -/
def exBigDiv : Node := el "div" [] [tx longText]

/-- A chapter page with no recognized content id/class: a short navigation
`div` and one 500-character `div`. -/
def exContent : Node := el "html" [] [el "body" [] [
  el "div" [("class", "nav")] [tx "short"],
  exBigDiv]]

/-- A 200-character text body. -/
def midText : String := (List.replicate 200 'y').asString

/-- A second qualifying content block, smaller than `exBigDiv`. -/
def exMidDiv : Node := el "div" [] [tx midText]

/-- A chapter page with two blocks over the 120-character bar — the smaller
one first, so first-qualifying and largest-text selection disagree. -/
def exContent2 : Node := el "html" [] [el "body" [] [
  el "div" [("class", "nav")] [tx "short"],
  exMidDiv,
  exBigDiv]]

/-- Two entries with no parseable chapter numbers (gap-filling gate). -/
def exFewEntries : List RawEntry :=
  [⟨some "序", "https://e.com/a.html"⟩, ⟨some "跋", "https://e.com/b.html"⟩]

/-- A transport oracle failing on the first attempt only. -/
def exOracle : Int → Except String HttpResponse := fun a =>
  if a = 1 then .error "timeout" else .ok ⟨200, "text/html; charset=gbk", [0x68, 0x69]⟩

/-!
## Theorems
-/

/-- The accumulation loop fails as soon as it meets a character outside the
digit/unit alphabet. -/
theorem chnGo_bad_char (l : List Char) (total current : Nat) (hasUnit : Bool)
    (h : ∃ c ∈ l, (chnDigit c).isNone ∧ (chnUnit c).isNone) :
    chnGo l total current hasUnit = none := by
  induction l generalizing total current hasUnit with
  | nil => simp at h
  | cons c rest ih =>
    obtain ⟨c', hc', hb1, hb2⟩ := h
    rw [List.mem_cons] at hc'
    simp only [chnGo]
    cases hd : chnDigit c with
    | none =>
      cases hu : chnUnit c with
      | none => rfl
      | some u =>
        rcases hc' with he | hm
        · subst he
          rw [hu] at hb2
          simp at hb2
        · exact ih _ _ _ ⟨c', hm, hb1, hb2⟩
    | some d =>
      rcases hc' with he | hm
      · subst he
        rw [hd] at hb1
        simp at hb1
      · exact ih _ _ _ ⟨c', hm, hb1, hb2⟩

/-- C7 — counterexample to the claim as stated: `"123"` contains only
characters outside the Chinese digit and unit alphabets, yet
`_chinese_numeral_to_int` parses it to `123` (via the `isdigit` fast path)
instead of returning `None`. -/
theorem C7_counterexample :
    _chinese_numeral_to_int "123" = some 123 ∧
    ("123".toList.all (fun c => (chnDigit c).isNone ∧ (chnUnit c).isNone)) = true := by
  constructor
  · rfl
  · decide

/-- C7 (amended) — `_chinese_numeral_to_int` parses `十二` to 12, `一百零五`
to 105 and lone `十` to 10, and returns `None` on any input whose stripped
form is not a plain digit string and contains a character outside the
digits `零〇一二三四五六七八九` and units `十百千万` (such as `"abc"`); a
plain digit string like `"123"` is parsed through `int` instead. -/
theorem C7_chinese_numeral_parsing :
    _chinese_numeral_to_int "十二" = some 12 ∧
    _chinese_numeral_to_int "一百零五" = some 105 ∧
    _chinese_numeral_to_int "十" = some 10 ∧
    _chinese_numeral_to_int "abc" = none ∧
    (∀ s : String, pyIsdigit (pyStripL s.toList) = false →
      (∃ c ∈ pyStripL s.toList, (chnDigit c).isNone ∧ (chnUnit c).isNone) →
      _chinese_numeral_to_int s = none) := by
  refine ⟨rfl, rfl, rfl, rfl, ?_⟩
  intro s hdig hbad
  unfold _chinese_numeral_to_int
  by_cases hs : s = ""
  · simp [hs]
  · simp only [hs, if_false, hdig, Bool.false_eq_true]
    exact chnGo_bad_char _ _ _ _ hbad

/-- C7 witness: the amended general clause applied at `"abc"`. -/
theorem C7_witness :
    pyIsdigit (pyStripL "abc".toList) = false ∧ _chinese_numeral_to_int "abc" = none :=
  ⟨by decide, C7_chinese_numeral_parsing.2.2.2.2 "abc" (by decide)
    ⟨'a', by decide, by decide⟩⟩

/-- C10 — calling `fetch_html` with `retries ≤ 0` leaves the attempt loop
empty: no transport request is made, no sleep happens, and the function
falls through returning `None` (modelled `ok none`), despite the declared
`-> str` annotation. -/
theorem C10_fetch_html_nonpositive_retries (oracle : Int → Except String HttpResponse)
    (retries : Int) (h : retries ≤ 0) :
    fetch_html oracle retries = ⟨.ok none, 0, []⟩ := by
  unfold fetch_html pyRange1
  rw [Int.toNat_eq_zero.mpr h]
  rfl

/-- C10 witness: `retries = -2` with an always-failing transport. -/
theorem C10_witness :
    (-2 : Int) ≤ 0 ∧ fetch_html (fun _ => .error "down") (-2) = ⟨.ok none, 0, []⟩ :=
  ⟨by decide, C10_fetch_html_nonpositive_retries _ (-2) (by decide)⟩

/-- C3 — counterexample: on a one-anchor `ul.chapter` container whose anchor
text is empty, the batched path returns `index/title/url` only, with the
empty title kept, while the non-batched extractor returns the synthesized
`第5章` title and a `chapter_num` field — the two results are not
semantically equivalent. -/
theorem C3_counterexample :
    _extract_chapters_in_batches exBatch "https://ex.com/b/" =
      [⟨1, "", "https://ex.com/b/5.html"⟩] ∧
    extract_chapter_list_from_index_precise_fixed (.parsed exBatch) "https://ex.com/b/"
        noFetch 0 =
      .ok [⟨1, "第5章", "https://ex.com/b/5.html", some 5⟩] :=
  ⟨rfl, rfl⟩

/-- Invariant of the batch-extraction loop: with the seen set covering the
accumulated URLs, accumulated URLs distinct, and accumulated indices the
range `1..len`, the final list keeps distinct URLs and contiguous indices. -/
theorem batchLoop_inv (base : String) (links : List Node) :
    ∀ (acc : List BatchChapter) (seen : List String),
      (∀ u ∈ acc.map (fun c => c.url), u ∈ seen) →
      (acc.map (fun c => c.url)).Nodup →
      acc.map (fun c => c.index) = List.range' 1 acc.length →
      ((batchLoop base links acc seen acc.length).map (fun c => c.url)).Nodup ∧
      (batchLoop base links acc seen acc.length).map (fun c => c.index)
        = List.range' 1 (batchLoop base links acc seen acc.length).length := by
  induction links with
  | nil =>
    intro acc seen h1 h2 h3
    simp only [batchLoop]
    exact ⟨h2, by simpa using h3⟩
  | cons link rest ih =>
    intro acc seen h1 h2 h3
    simp only [batchLoop]
    by_cases hh : pyStrip (getAttrD link "href" "") = ""
    · rw [if_pos hh]
      exact ih acc seen h1 h2 h3
    · rw [if_neg hh]
      by_cases hv : ¬ (_is_chapter_href (_abs_url base (pyStrip (getAttrD link "href" ""))) ∧
          ¬ _is_nav_path (_abs_url base (pyStrip (getAttrD link "href" ""))))
      · rw [if_pos hv]
        exact ih acc seen h1 h2 h3
      · rw [if_neg hv]
        by_cases hs : seen.contains (_abs_url base (pyStrip (getAttrD link "href" "")))
        · rw [if_pos hs]
          exact ih acc seen h1 h2 h3
        · rw [if_neg hs]
          have hfull : _abs_url base (pyStrip (getAttrD link "href" "")) ∉ seen := by
            simpa using hs
          have hnotacc : _abs_url base (pyStrip (getAttrD link "href" ""))
              ∉ acc.map (fun c => c.url) := fun hmem => hfull (h1 _ hmem)
          have hlen : (acc ++ [(⟨acc.length + 1,
              _normalize_title (_clean_text (getText "" true link)),
              _abs_url base (pyStrip (getAttrD link "href" ""))⟩ : BatchChapter)]).length
              = acc.length + 1 := by
            simp
          have := ih (acc ++ [(⟨acc.length + 1,
              _normalize_title (_clean_text (getText "" true link)),
              _abs_url base (pyStrip (getAttrD link "href" ""))⟩ : BatchChapter)])
            (seen ++ [_abs_url base (pyStrip (getAttrD link "href" ""))])
            (by
              intro u hu
              rw [List.map_append, List.mem_append] at hu
              rcases hu with hu | hu
              · exact List.mem_append_left _ (h1 u hu)
              · simp at hu
                simp [hu])
            (by
              rw [List.map_append]
              simp only [List.map_cons, List.map_nil]
              rw [List.nodup_append]
              refine ⟨h2, List.nodup_singleton _, ?_⟩
              intro x hx hx'
              simp at hx'
              rw [hx'] at hx
              exact hnotacc hx)
            (by
              rw [List.map_append, h3, hlen]
              simp only [List.map_cons, List.map_nil]
              rw [List.range'_concat]
              simp [Nat.add_comm])
          rw [hlen] at this
          exact this

/-- The batch loop emits URLs as a subsequence of the incoming anchors'
resolved URLs, in their (document) order, after the already-accumulated
URLs. -/
theorem batchLoop_url_sublist (base : String) (links : List Node) :
    ∀ (acc : List BatchChapter) (seen : List String) (n : Nat),
      ((batchLoop base links acc seen n).map (fun c => c.url)).Sublist
        ((acc.map (fun c => c.url)) ++
          links.map (fun a => _abs_url base (pyStrip (getAttrD a "href" "")))) := by
  induction links with
  | nil =>
    intro acc seen n
    simp only [batchLoop, List.map_nil, List.append_nil]
    exact List.Sublist.refl _
  | cons link rest ih =>
    intro acc seen n
    simp only [batchLoop, List.map_cons]
    have hstep : ∀ l : List String,
        l.Sublist ((acc.map (fun c => c.url)) ++
          rest.map (fun a => _abs_url base (pyStrip (getAttrD a "href" "")))) →
        l.Sublist ((acc.map (fun c => c.url)) ++
          (_abs_url base (pyStrip (getAttrD link "href" "")) ::
            rest.map (fun a => _abs_url base (pyStrip (getAttrD a "href" ""))))) := by
      intro l h
      exact h.trans (List.Sublist.append_left (List.Sublist.cons _ (List.Sublist.refl _)) _)
    by_cases hh : pyStrip (getAttrD link "href" "") = ""
    · rw [if_pos hh]
      exact hstep _ (ih acc seen n)
    · rw [if_neg hh]
      by_cases hv : ¬ (_is_chapter_href (_abs_url base (pyStrip (getAttrD link "href" ""))) ∧
          ¬ _is_nav_path (_abs_url base (pyStrip (getAttrD link "href" ""))))
      · rw [if_pos hv]
        exact hstep _ (ih acc seen n)
      · rw [if_neg hv]
        by_cases hs : seen.contains (_abs_url base (pyStrip (getAttrD link "href" "")))
        · rw [if_pos hs]
          exact hstep _ (ih acc seen n)
        · rw [if_neg hs]
          have := ih (acc ++ [(⟨n + 1,
              _normalize_title (_clean_text (getText "" true link)),
              _abs_url base (pyStrip (getAttrD link "href" ""))⟩ : BatchChapter)])
            (seen ++ [_abs_url base (pyStrip (getAttrD link "href" ""))]) (n + 1)
          rw [List.map_append] at this
          simpa [List.append_assoc] using this

/-- C3 (amended) — the memory-optimized batched path is not semantically
equivalent to `extract_chapter_list_from_index_precise_fixed` (see the
counterexample: entries carry no `chapter_num` and keep raw anchor titles
without the `第N章` synthesis); what does hold of the batched list is that
its URLs are pairwise distinct, its indices are the contiguous range
`1..N`, and its URL sequence is a subsequence of the chosen container's
anchor URLs in document order (no reordering). -/
theorem C3_batched_list_shape (doc : Node) (base : String) :
    ((_extract_chapters_in_batches doc base).map (fun c => c.url)).Nodup ∧
    (_extract_chapters_in_batches doc base).map (fun c => c.index)
      = List.range' 1 (_extract_chapters_in_batches doc base).length ∧
    ((_extract_chapters_in_batches doc base).map (fun c => c.url)).Sublist
      ((anchorsWithHref (_find_chapter_container doc)).map
        (fun a => _abs_url base (pyStrip (getAttrD a "href" "")))) := by
  obtain ⟨h1, h2⟩ := batchLoop_inv base (anchorsWithHref (_find_chapter_container doc))
    [] [] (by simp) (by simp) (by simp)
  refine ⟨h1, h2, ?_⟩
  have := batchLoop_url_sublist base (anchorsWithHref (_find_chapter_container doc)) [] [] 0
  simpa using this

/-- The gap probe loop only appends, at most one entry per probed number. -/
theorem gapLoop_extends (ams : List AnchorMatch) (base : String) (ns : List Nat) :
    ∀ es ex, ∃ extra, gapLoop ams base ns es ex = es ++ extra ∧ extra.length ≤ ns.length := by
  induction ns with
  | nil =>
    intro es ex
    exact ⟨[], by simp [gapLoop], by simp⟩
  | cons n rest ih =>
    intro es ex
    simp only [gapLoop]
    cases hp : gapProbeOne ams base ex n with
    | none =>
      obtain ⟨extra, he, hl⟩ := ih es ex
      exact ⟨extra, he, Nat.le_succ_of_le hl⟩
    | some e =>
      obtain ⟨extra, he, hl⟩ := ih (es ++ [e]) (ex ++ [e.url])
      exact ⟨[e] ++ extra,
        by rw [← List.append_assoc]; exact he,
        by simpa using Nat.succ_le_succ hl⟩

/-- C6 — the gap-filling supplement runs only when at least 5 entries
yielded parseable chapter numbers, and then appends at most 120 probed
entries when the entry list exceeds 1500, else at most 240; and the probes
read only the serialized HTML of the already-chosen container — two
containers with the same serialization are indistinguishable to the
stage. -/
theorem C6_gap_filling_gate_and_cap :
    (∀ entries cont base, (numsOf entries).length < 5 → gapFillStage entries cont base = entries) ∧
    (∀ entries ul base, ∃ extra,
      gapFillStage entries (some ul) base = entries ++ extra ∧
      extra.length ≤ (if 1500 < entries.length then 120 else 240)) ∧
    (∀ entries ul ul' base, renderNode ul = renderNode ul' →
      gapFillStage entries (some ul) base = gapFillStage entries (some ul') base) := by
  refine ⟨?_, ?_, ?_⟩
  · intro entries cont base h
    unfold gapFillStage
    rw [if_neg (by omega)]
  · intro entries ul base
    unfold gapFillStage
    by_cases h5 : 5 ≤ (numsOf entries).length
    · rw [if_pos h5]
      by_cases hm : (gapMissing (numsOf entries)).isEmpty
      · refine ⟨[], ?_, by simp⟩
        simp [hm]
      · simp only [hm, not_false_eq_true, if_true, Bool.false_eq_true]
        unfold gapFillFromHtml
        obtain ⟨extra, he, hl⟩ :=
          gapLoop_extends
            (scanAnchorsGo ((renderNode ul).length + 1) (renderNode ul).toList) base
            ((gapMissing (numsOf entries)).take (if 1500 < entries.length then 120 else 240))
            entries (entries.map (fun e => e.url))
        exact ⟨extra, he, hl.trans (List.length_take_le _ _)⟩
    · rw [if_neg h5]
      exact ⟨[], by simp, by simp⟩
  · intro entries ul ul' base hr
    unfold gapFillStage
    dsimp only
    rw [hr]

/-- C6 witness: two entries with no parseable numbers leave the list
untouched (the ≥ 5 gate), and two structurally different containers with
the same serialization drive the stage identically (the probes read only
the serialized container HTML). -/
theorem C6_witness :
    (numsOf exFewEntries).length < 5 ∧
    gapFillStage exFewEntries (some (el "ul" [] [])) "https://e.com/" = exFewEntries ∧
    renderNode (el "ul" [] [tx "ab"]) = renderNode (el "ul" [] [tx "a", tx "b"]) ∧
    gapFillStage exFewEntries (some (el "ul" [] [tx "ab"])) "https://e.com/"
      = gapFillStage exFewEntries (some (el "ul" [] [tx "a", tx "b"])) "https://e.com/" :=
  ⟨by decide,
   C6_gap_filling_gate_and_cap.1 exFewEntries (some (el "ul" [] [])) "https://e.com/"
     (by decide),
   by decide,
   C6_gap_filling_gate_and_cap.2.2 exFewEntries (el "ul" [] [tx "ab"])
     (el "ul" [] [tx "a", tx "b"]) "https://e.com/" (by decide)⟩

/-- The fold of the descending text sort lands on the start element or an
element of the folded list. -/
theorem foldl_maxText_mem (rest : List Node) :
    ∀ b : Node, rest.foldl maxTextPick b = b ∨ rest.foldl maxTextPick b ∈ rest := by
  induction rest with
  | nil =>
    intro b
    exact Or.inl rfl
  | cons v vs ih =>
    intro b
    simp only [List.foldl_cons]
    rcases ih (maxTextPick b v) with h | h
    · rw [h]
      unfold maxTextPick
      by_cases hc : (getText "" false b).length < (getText "" false v).length
      · rw [if_pos hc]
        exact Or.inr (List.mem_cons_self _ _)
      · rw [if_neg hc]
        exact Or.inl rfl
    · exact Or.inr (List.mem_cons_of_mem _ h)

/-- The fold of the descending text sort dominates the start element and
every folded element in raw text length. -/
theorem foldl_maxText_ge (rest : List Node) :
    ∀ b : Node,
      (getText "" false b).length ≤ (getText "" false (rest.foldl maxTextPick b)).length ∧
      ∀ x ∈ rest,
        (getText "" false x).length ≤ (getText "" false (rest.foldl maxTextPick b)).length := by
  induction rest with
  | nil =>
    intro b
    exact ⟨le_refl _, by simp⟩
  | cons v vs ih =>
    intro b
    simp only [List.foldl_cons]
    obtain ⟨h1, h2⟩ := ih (maxTextPick b v)
    have hb : (getText "" false b).length ≤ (getText "" false (maxTextPick b v)).length := by
      unfold maxTextPick
      by_cases hc : (getText "" false b).length < (getText "" false v).length
      · rw [if_pos hc]
        omega
      · rw [if_neg hc]
    have hv : (getText "" false v).length ≤ (getText "" false (maxTextPick b v)).length := by
      unfold maxTextPick
      by_cases hc : (getText "" false b).length < (getText "" false v).length
      · rw [if_pos hc]
      · rw [if_neg hc]
        omega
    refine ⟨le_trans hb h1, ?_⟩
    intro x hx
    rcases List.mem_cons.mp hx with rfl | hx
    · exact le_trans hv h1
    · exact h2 x hx

/-- C9 — when no known content id and no known content class matches, the
extractor falls back to the element `maxTextBlock` picks among the
`div`/`article`/`section` blocks whose stripped text exceeds 120
characters, and returns that block's paragraph list joined by blank lines;
and `maxTextBlock` really selects a block with the most text: its pick
belongs to the pool and its raw text length dominates every pool member. -/
theorem C9_content_largest_block_fallback :
    (∀ doc d : Node, contentCandidates doc = [] →
      maxTextBlock (bigBlocks doc) = some d →
      contParagraphs d ≠ [] →
      extract_title_and_content_from_chapter doc
        = ⟨pageTitle doc, String.intercalate "\n\n" (contParagraphs d), contParagraphs d⟩) ∧
    (∀ (ds : List Node) (d : Node), maxTextBlock ds = some d →
      d ∈ ds ∧ ∀ x ∈ ds, (getText "" false x).length ≤ (getText "" false d).length) := by
  constructor
  · intro doc d hc hm hp
    unfold extract_title_and_content_from_chapter
    rw [hc]
    simp only [List.isEmpty_nil, if_true]
    rw [hm]
    simp only [List.findSome?]
    have : (contParagraphs d).isEmpty = false := by
      cases hcp : contParagraphs d with
      | nil => exact absurd hcp hp
      | cons a l => rfl
    simp [this]
  · intro ds d hm
    cases ds with
    | nil => simp [maxTextBlock] at hm
    | cons d0 rest =>
      simp only [maxTextBlock, Option.some.injEq] at hm
      subst hm
      constructor
      · rcases foldl_maxText_mem rest d0 with h | h
        · rw [h]
          exact List.mem_cons_self _ _
        · exact List.mem_cons_of_mem _ h
      · intro x hx
        obtain ⟨h1, h2⟩ := foldl_maxText_ge rest d0
        rcases List.mem_cons.mp hx with rfl | hx
        · exact h1
        · exact h2 x hx

/-- C9 witness: a page with a unique 500-character `div` returns its text;
a page where a 200-character block precedes the 500-character block still
returns the larger block's text (the pool has two members and the pick is
the later, larger one), and the pick is a dominating pool member. -/
theorem C9_witness :
    extract_title_and_content_from_chapter exContent = ⟨"", longText, [longText]⟩ ∧
    extract_title_and_content_from_chapter exContent2 = ⟨"", longText, [longText]⟩ ∧
    bigBlocks exContent2 = [exMidDiv, exBigDiv] ∧
    maxTextBlock (bigBlocks exContent2) = some exBigDiv ∧
    exBigDiv ∈ bigBlocks exContent2 := by
  refine ⟨?_, ?_, rfl, rfl, ?_⟩
  · exact (C9_content_largest_block_fallback.1 exContent exBigDiv rfl rfl
      (by decide)).trans (by rfl)
  · exact (C9_content_largest_block_fallback.1 exContent2 exBigDiv rfl rfl
      (by decide)).trans (by rfl)
  · exact (C9_content_largest_block_fallback.2 (bigBlocks exContent2) exBigDiv rfl).1

/-- Every return path of the extractor goes through `_finalize_entries`. -/
theorem extract_shape (po : ParseOutcome) (base : String)
    (fetch : String → Except String Node) (fuel : Nat) :
    ∃ es, extract_chapter_list_from_index_precise_fixed po base fetch fuel
      = .ok (_finalize_entries es) := by
  cases h : dlPathEntries (_bs po) base with
  | some des =>
    exact ⟨des, by simp only [extract_chapter_list_from_index_precise_fixed, h]⟩
  | none =>
    exact ⟨pipelineEntries (_bs po) base fetch fuel,
      by simp only [extract_chapter_list_from_index_precise_fixed, mainPipeline, h]⟩

/-- URLs surviving the finalization dedup never come from the seen set. -/
theorem dedupGo_not_seen (es : List RawEntry) :
    ∀ seen, ∀ u ∈ (dedupGo es seen).map (fun e => e.url), u ∉ seen := by
  induction es with
  | nil =>
    intro seen u hu
    simp [dedupGo] at hu
  | cons e rest ih =>
    intro seen u hu
    simp only [dedupGo] at hu
    by_cases h : seen.contains e.url
    · rw [if_pos h] at hu
      exact ih seen u hu
    · rw [if_neg h] at hu
      simp only [List.map_cons, List.mem_cons] at hu
      rcases hu with rfl | hu
      · simpa using h
      · intro hs
        exact ih (e.url :: seen) u hu (List.mem_cons_of_mem _ hs)

/-- The finalization dedup produces pairwise-distinct URLs. -/
theorem dedupGo_urls_nodup (es : List RawEntry) :
    ∀ seen, ((dedupGo es seen).map (fun e => e.url)).Nodup := by
  induction es with
  | nil => intro seen; simp [dedupGo]
  | cons e rest ih =>
    intro seen
    simp only [dedupGo]
    by_cases h : seen.contains e.url
    · rw [if_pos h]
      exact ih seen
    · rw [if_neg h]
      simp only [List.map_cons, List.nodup_cons]
      refine ⟨?_, ih (e.url :: seen)⟩
      intro hmem
      exact (dedupGo_not_seen rest (e.url :: seen) _ hmem) (List.mem_cons_self _ _)

/-- The dedup keeps a subsequence of the incoming URLs — it never reorders. -/
theorem dedupGo_sublist (es : List RawEntry) :
    ∀ seen, List.Sublist ((dedupGo es seen).map (fun e => e.url)) (es.map (fun e => e.url)) := by
  induction es with
  | nil => intro seen; simp [dedupGo]
  | cons e rest ih =>
    intro seen
    simp only [dedupGo, List.map_cons]
    by_cases h : seen.contains e.url
    · rw [if_pos h]
      exact (ih seen).cons _
    · rw [if_neg h]
      simp only [List.map_cons]
      exact (ih (e.url :: seen)).cons₂ _

/-- Finalization only renumbers and retitles: the URL sequence is exactly the
deduplicated raw URL sequence. -/
theorem finalize_urls (es : List RawEntry) :
    (_finalize_entries es).map (fun c => c.url) = (dedupGo es []).map (fun e => e.url) := by
  unfold _finalize_entries
  rw [List.map_map]
  show (dedupGo es []).enum.map (fun p => p.2.url) = _
  have : (fun p : Nat × RawEntry => p.2.url) = (fun e : RawEntry => e.url) ∘ Prod.snd := rfl
  rw [this, ← List.map_map, List.enum_map_snd]

/-- C2 — any list the extractor returns has pairwise-distinct entry URLs
(deduplication by absolute URL, keeping the first-seen occurrence). -/
theorem C2_extract_urls_distinct (po : ParseOutcome) (base : String)
    (fetch : String → Except String Node) (fuel : Nat) (l : List ChapterEntry)
    (h : extract_chapter_list_from_index_precise_fixed po base fetch fuel = .ok l) :
    (l.map (fun c => c.url)).Nodup := by
  obtain ⟨es, he⟩ := extract_shape po base fetch fuel
  rw [h] at he
  injection he with he
  rw [he, finalize_urls]
  exact dedupGo_urls_nodup es []

/-- C2 witness: the `exDl` output and its distinct URLs. -/
theorem C2_witness :
    extract_chapter_list_from_index_precise_fixed (.parsed exDl) exBase noFetch 0
      = .ok exDlFinal ∧
    (exDlFinal.map (fun c => c.url)).Nodup :=
  ⟨rfl, C2_extract_urls_distinct (.parsed exDl) exBase noFetch 0 exDlFinal rfl⟩

/-- C5 — the extractor is total over the parse boundary: for every parse
outcome (including outright parser failure on arbitrarily malformed input)
and every fetch oracle it returns `ok`, never an error; on the degenerate
document the result is the empty list. -/
theorem C5_extract_never_raises :
    (∀ po base fetch fuel, ∃ l,
      extract_chapter_list_from_index_precise_fixed po base fetch fuel = .ok l) ∧
    (∀ base fetch fuel,
      extract_chapter_list_from_index_precise_fixed .failed base fetch fuel = .ok []) := by
  constructor
  · intro po base fetch fuel
    obtain ⟨es, he⟩ := extract_shape po base fetch fuel
    exact ⟨_, he⟩
  · intro base fetch fuel
    cases fuel with
    | zero => rfl
    | succ n => rfl

/-- C1 — order fidelity: finalization emits URLs as a subsequence of the raw
encounter order (no sorting of any kind, in particular none by
`chapter_num`), and on a `dl` layout the extractor returns exactly the
finalized `dl` entries, which are collected in document order. -/
theorem C1_order_preservation :
    (∀ es : List RawEntry,
      List.Sublist ((_finalize_entries es).map (fun c => c.url)) (es.map (fun e => e.url))) ∧
    (∀ doc base fetch fuel des, dlPathEntries doc base = some des →
      extract_chapter_list_from_index_precise_fixed (.parsed doc) base fetch fuel
        = .ok (_finalize_entries des)) := by
  constructor
  · intro es
    rw [finalize_urls]
    exact dedupGo_sublist es []
  · intro doc base fetch fuel des h
    simp only [extract_chapter_list_from_index_precise_fixed, _bs, h]

/-- C1 witness: the synthetic `正文卷` list with non-monotonic numbers
(7, 2, 9, 3, 5) comes back in document order, not numeric order. -/
theorem C1_witness :
    dlPathEntries exDl exBase = some exDlRaw ∧
    extract_chapter_list_from_index_precise_fixed (.parsed exDl) exBase noFetch 0
      = .ok exDlFinal ∧
    exDlFinal.map (fun c => c.chapter_num) = [some 7, some 2, some 9, some 3, some 5] :=
  ⟨rfl, (C1_order_preservation.2 exDl exBase noFetch 0 exDlRaw rfl).trans rfl, rfl⟩

/-- Membership in a stable page insertion. -/
theorem mem_insertPage (p q : Nat × String) (l : List (Nat × String)) :
    q ∈ insertPage p l ↔ q = p ∨ q ∈ l := by
  induction l with
  | nil => simp [insertPage]
  | cons r rest ih =>
    simp only [insertPage]
    by_cases h : r.1 ≤ p.1
    · rw [if_pos h]
      simp only [List.mem_cons, ih]
      tauto
    · rw [if_neg h]
      simp only [List.mem_cons]

/-- Stable insertion preserves the ascending page order. -/
theorem pairwise_insertPage (p : Nat × String) (l : List (Nat × String))
    (h : List.Pairwise (fun a b : Nat × String => a.1 ≤ b.1) l) :
    List.Pairwise (fun a b : Nat × String => a.1 ≤ b.1) (insertPage p l) := by
  induction l with
  | nil => simp [insertPage]
  | cons r rest ih =>
    simp only [insertPage]
    rcases List.pairwise_cons.mp h with ⟨hr, hrest⟩
    by_cases hc : r.1 ≤ p.1
    · rw [if_pos hc]
      rw [List.pairwise_cons]
      refine ⟨?_, ih hrest⟩
      intro q hq
      rcases (mem_insertPage p q rest).mp hq with rfl | hq
      · exact hc
      · exact hr q hq
    · rw [if_neg hc]
      rw [List.pairwise_cons]
      refine ⟨?_, h⟩
      intro q hq
      rcases List.mem_cons.mp hq with rfl | hq
      · omega
      · exact le_trans (by omega) (hr q hq)

/-- The page sort builds an ascending list from any input. -/
theorem pairwise_sortPagesGo (l : List (Nat × String)) :
    ∀ acc, List.Pairwise (fun a b : Nat × String => a.1 ≤ b.1) acc →
      List.Pairwise (fun a b : Nat × String => a.1 ≤ b.1) (sortPagesGo acc l) := by
  induction l with
  | nil =>
    intro acc h
    simpa [sortPagesGo] using h
  | cons p rest ih =>
    intro acc h
    simp only [sortPagesGo]
    exact ih _ (pairwise_insertPage p acc h)

/-- C4 — once pagination discovery sees any page ≥ 2 (and no `dl` structure
short-circuited earlier), the extractor ignores everything extracted from
the first page and returns exactly the finalized per-page rebuild, the pages
being visited in ascending page-number order. -/
theorem C4_pagination_rebuilds_from_scratch (doc : Node) (base : String)
    (fetch : String → Except String Node) (fuel : Nat)
    (hdl : dlPathEntries doc base = none)
    (hp : (pagesOf doc base).any (fun p => 2 ≤ p.1) = true) :
    extract_chapter_list_from_index_precise_fixed (.parsed doc) base fetch fuel
      = .ok (_finalize_entries (pagedRebuild fetch doc (pagesOf doc base))) ∧
    List.Pairwise (fun p q : Nat × String => p.1 ≤ q.1) (pagesOf doc base) := by
  constructor
  · simp only [extract_chapter_list_from_index_precise_fixed, _bs, hdl, mainPipeline,
      pipelineEntries, paginationStage, hp, if_true]
  · exact pairwise_sortPagesGo _ [] List.Pairwise.nil

/-- C4 witness: on a first page with an `index_2.html` page-picker the
result is rebuilt page by page — first page re-extracted, then page 2 —
even though the first-page container had already yielded entries. -/
theorem C4_witness :
    dlPathEntries exPag exBase = none ∧
    (pagesOf exPag exBase).any (fun p => 2 ≤ p.1) = true ∧
    extract_chapter_list_from_index_precise_fixed (.parsed exPag) exBase pagFetch 0
      = .ok exPagFinal :=
  ⟨rfl, rfl,
   (C4_pagination_rebuilds_from_scratch exPag exBase pagFetch 0 rfl rfl).1.trans rfl⟩

/-!
### `fetch_html` lemmas
-/

/-- The retry loop fails exactly when every listed attempt fails. -/
theorem fetchGo_error_iff (oracle : Int → Except String HttpResponse) :
    ∀ l : List Int, l ≠ [] →
      ((fetchGo oracle l).result.isOk = false ↔
        ∀ a ∈ l, (attemptOnce oracle a).isOk = false) := by
  intro l
  induction l with
  | nil => intro hl; exact absurd rfl hl
  | cons a rest ih =>
    intro _
    simp only [fetchGo]
    cases ha : attemptOnce oracle a with
    | ok t =>
      constructor
      · intro h
        simp [Except.isOk, Except.toBool] at h
      · intro h
        have := h a (List.mem_cons_self a rest)
        rw [ha] at this
        simp [Except.isOk, Except.toBool] at this
    | error e =>
      cases rest with
      | nil =>
        simp only [List.isEmpty_nil, if_true]
        constructor
        · intro _ a' hmem
          rcases List.mem_singleton.mp hmem with rfl
          rw [ha]
          rfl
        · intro _
          rfl
      | cons b rs =>
        simp only [List.isEmpty_cons, Bool.false_eq_true, if_false]
        rw [ih (by simp)]
        constructor
        · intro h a' hmem
          rcases List.mem_cons.mp hmem with rfl | hmem
          · rw [ha]; rfl
          · exact h a' hmem
        · intro h a' hmem
          exact h a' (List.mem_cons_of_mem _ hmem)

/-- A propagated error is the final attempt's error. -/
theorem fetchGo_error_last (oracle : Int → Except String HttpResponse) :
    ∀ (l : List Int) (e : String), (fetchGo oracle l).result = .error e →
      ∃ a, l.getLast? = some a ∧ attemptOnce oracle a = .error e := by
  intro l
  induction l with
  | nil =>
    intro e h
    simp [fetchGo] at h
  | cons a rest ih =>
    intro e h
    simp only [fetchGo] at h
    cases ha : attemptOnce oracle a with
    | ok t =>
      rw [ha] at h
      simp at h
    | error e' =>
      rw [ha] at h
      cases rest with
      | nil =>
        simp only [List.isEmpty_nil, if_true] at h
        simp at h
        exact ⟨a, rfl, by rw [ha, h]⟩
      | cons b rs =>
        simp only [List.isEmpty_cons, Bool.false_eq_true, if_false] at h
        obtain ⟨a', hl', he'⟩ := ih e h
        exact ⟨a', by rw [List.getLast?_cons_cons]; exact hl', he'⟩

/-- The backoff trace: `0.3 * attempt` for every failed non-final attempt
before the first success. -/
theorem fetchGo_sleeps (oracle : Int → Except String HttpResponse) :
    ∀ l : List Int,
      (fetchGo oracle l).sleeps
        = ((l.takeWhile (fun a => !(attemptOnce oracle a).isOk)).take (l.length - 1)).map
            (fun a => (3 : ℚ) / 10 * (a : ℚ)) := by
  intro l
  induction l with
  | nil => simp [fetchGo]
  | cons a rest ih =>
    simp only [fetchGo]
    cases ha : attemptOnce oracle a with
    | ok t =>
      simp [List.takeWhile_cons, ha, Except.isOk, Except.toBool]
    | error e =>
      cases rest with
      | nil =>
        simp [List.takeWhile_cons, ha, Except.isOk, Except.toBool]
      | cons b rs =>
        simp only [List.isEmpty_cons, Bool.false_eq_true, if_false]
        rw [ih]
        simp [List.takeWhile_cons, ha, Except.isOk, Except.toBool, List.take_succ_cons,
          List.length_cons]

/-- A transport success with a good status always decodes: the codec chain
ends in the total lossy GB18030 decode, so the attempt returns text. -/
theorem attemptOnce_ok_of_transport (oracle : Int → Except String HttpResponse)
    (a : Int) (resp : HttpResponse) (h : oracle a = .ok resp) (hs : resp.status < 400) :
    (attemptOnce oracle a).isOk = true := by
  unfold attemptOnce
  rw [h]
  dsimp only
  rw [if_neg (by omega)]
  by_cases hr : resp.body.isEmpty
  · rw [if_pos hr]
    rfl
  · rw [if_neg hr]
    split
    · rfl
    · rfl

/-- Index bookkeeping: `range(1, retries + 1)` has `retries.toNat` entries. -/
theorem pyRange1_length (hi : Int) : (pyRange1 hi).length = hi.toNat := by
  simp [pyRange1]

/-- The final element of `range(1, retries + 1)` is `retries`. -/
theorem pyRange1_getLast (retries : Int) (h : 1 ≤ retries) :
    (pyRange1 retries).getLast? = some retries := by
  unfold pyRange1
  obtain ⟨n, hn⟩ : ∃ n, retries.toNat = n + 1 := ⟨retries.toNat - 1, by omega⟩
  rw [hn, List.range_succ, List.map_append]
  simp only [List.map_cons, List.map_nil]
  rw [List.getLast?_append_cons]
  simp only [List.getLast?_singleton, Option.some.injEq]
  omega

/-- C8 — `fetch_html` makes up to `retries` attempts: it fails exactly when
every attempt fails with a transport error, propagating the final attempt's
error; it sleeps `0.3 × attempt` seconds after each failed non-final
attempt; and a transport success never turns into an error during decoding
(the codec chain ends in lossy GB18030, which always yields text). -/
theorem C8_fetch_html_retry_and_decode (oracle : Int → Except String HttpResponse)
    (retries : Int) (h : 1 ≤ retries) :
    ((fetch_html oracle retries).result.isOk = false ↔
      ∀ a ∈ pyRange1 retries, (attemptOnce oracle a).isOk = false) ∧
    (∀ e, (fetch_html oracle retries).result = .error e →
      attemptOnce oracle retries = .error e) ∧
    (fetch_html oracle retries).sleeps
      = (((pyRange1 retries).takeWhile (fun a => !(attemptOnce oracle a).isOk)).take
          (retries - 1).toNat).map (fun a => (3 : ℚ) / 10 * (a : ℚ)) ∧
    (∀ a resp, oracle a = .ok resp → resp.status < 400 →
      (attemptOnce oracle a).isOk = true) := by
  have hne : pyRange1 retries ≠ [] := by
    intro hc
    have := pyRange1_length retries
    rw [hc] at this
    simp at this
    omega
  refine ⟨fetchGo_error_iff oracle _ hne, ?_, ?_,
    fun a resp hr hs => attemptOnce_ok_of_transport oracle a resp hr hs⟩
  · intro e he
    obtain ⟨a, hlast, ha⟩ := fetchGo_error_last oracle _ e he
    rw [pyRange1_getLast retries h] at hlast
    injection hlast with hlast
    rw [hlast]
    exact ha
  · have hs := fetchGo_sleeps oracle (pyRange1 retries)
    rw [pyRange1_length] at hs
    rw [show retries.toNat - 1 = (retries - 1).toNat by omega] at hs
    exact hs

/-- C8 witness: with a transport that fails once and then succeeds, two
retries sleep `0.3 × 1` seconds once, and the successful attempt's decode
cannot raise. -/
theorem C8_witness :
    (fetch_html exOracle 2).sleeps = [(3 : ℚ) / 10 * ((1 : Int) : ℚ)] ∧
    (attemptOnce exOracle 2).isOk = true := by
  have h := C8_fetch_html_retry_and_decode exOracle 2 (by decide)
  exact ⟨h.2.2.1.trans (by rfl),
    h.2.2.2 2 ⟨200, "text/html; charset=gbk", [0x68, 0x69]⟩ rfl (by decide)⟩

end Crawler
